import Mathlib

/-! Symphony control plane (`api/pkg/apis/v1alpha1`): the model helpers, the
devices and models managers, and the federation and solution vendors.

A shallow embedding of `model/utils.go`, `model/catalog.go`,
`managers/devices/devices-manager.go`, `managers/models/models-manager.go`,
`vendors/federation-vendor.go` and `vendors/solution-vendor.go`.

* Go `string` values are Lean `String`s (texts that are valid UTF-8); the
  functions of Go's `strings` package that the code calls are written out on the
  character list, where they agree with Go's byte-wise search on such texts.
* A Go `map[string]string` is a finite list of entries with pairwise distinct
  keys (`StringMap`).  `range` visits the entries; every loop below only ever
  leaves early with `return false`, so the visiting order does not matter.
* A Go `(bool, error)` result is a pair `Bool × GoError`, `none` being `nil`.
* A pointer or a map that may be nil is an `Option`; a run that can end in a
  runtime panic returns a `Run`.
* Calls into managers, providers and libraries that are not part of these
  sources are parameters of the functions that make them; tracing and logging
  calls are left out.
-/

/-! ## Go's `strings` package -/

namespace strings

/-- Character-list form of `strings.HasPrefix`: `pre` is an initial segment of `s`. -/
def hasPrefixList : List Char → List Char → Bool
  | _, [] => true
  | [], _ :: _ => false
  | c :: cs, p :: ps => c == p && hasPrefixList cs ps

/-- Character-list form of `strings.Contains`: `sub` occurs somewhere in `s`. -/
def containsList : List Char → List Char → Bool
  | [], sub => hasPrefixList [] sub
  | c :: cs, sub => hasPrefixList (c :: cs) sub || containsList cs sub

/-- Left-to-right replacement of the non-overlapping occurrences of a non-empty
`old` by `new`.  The counter is the number of characters of a matched
occurrence that still have to be skipped. -/
def replaceFrom (old new : List Char) : Nat → List Char → List Char
  | _, [] => []
  | skip + 1, _ :: cs => replaceFrom old new skip cs
  | 0, c :: cs =>
    if hasPrefixList (c :: cs) old then new ++ replaceFrom old new (old.length - 1) cs
    else c :: replaceFrom old new 0 cs

/-- Character-list form of `strings.ReplaceAll`.  For an empty `old` Go inserts
`new` at the start and after every character. -/
def replaceAllList (s old new : List Char) : List Char :=
  match old with
  | [] => new ++ s.flatMap (fun c => c :: new)
  | _ :: _ => replaceFrom old new 0 s

/-- The Go function `strings.HasPrefix(s, prefix)`. -/
def HasPrefix (s pre : String) : Bool := hasPrefixList s.data pre.data

/-- The Go function `strings.Contains(s, substr)`. -/
def Contains (s substr : String) : Bool := containsList s.data substr.data

/-- The Go function `strings.ReplaceAll(s, old, new)`. -/
def ReplaceAll (s old new : String) : String :=
  String.mk (replaceAllList s.data old.data new.data)

end strings

/-! ## Maps and errors -/

/-- A Go `error` value; `none` is `nil`. -/
abbrev GoError := Option String

/-- Look a key up in a list of entries. -/
def lookupEntry (k : String) : List (String × String) → Option String
  | [] => none
  | (k1, v1) :: rest => if k1 = k then some v1 else lookupEntry k rest

/-- A Go `map[string]string`: entries with pairwise distinct keys. -/
structure StringMap where
  entries : List (String × String)
  nodupKeys : (entries.map Prod.fst).Nodup

namespace StringMap

/-- The comma-ok lookup `v, ok := m[k]`: `some v` when `ok`, else `none`. -/
def get? (m : StringMap) (k : String) : Option String := lookupEntry k m.entries

/-- The empty map. -/
def empty : StringMap := ⟨[], List.nodup_nil⟩

end StringMap

/-- The Go function `slices.Contains` of `golang.org/x/exp/slices`, on strings. -/
def go_slices.Contains (s : List String) (v : String) : Bool :=
  match s with
  | [] => false
  | x :: rest => if x = v then true else go_slices.Contains rest v

/-! ## `utils.go` -/

/-- The struct `ValueInjections`. -/
structure ValueInjections where
  InstanceId : String
  SolutionId : String
  TargetId : String
  ActivationId : String

/-- The innermost condition of the loops of `StringMapsEqual` and `EnvMapsEqual`:
neither value contains `$instance()`, `$solution()` or `$target()`. -/
def noSkipToken (bv v : String) : Bool :=
  !strings.Contains bv "$instance()" && !strings.Contains v "$instance()" &&
  !strings.Contains bv "$solution()" && !strings.Contains v "$solution()" &&
  !strings.Contains bv "$target()" && !strings.Contains v "$target()"

/-- One `for k, v := range x` loop of `StringMapsEqual`, looking each key up in
`y`: `false` when the loop executes `return false`, `true` when it runs to its end. -/
def StringMapsEqual.loop (y : StringMap) (ignoredMissingKeys : List String) :
    List (String × String) → Bool
  | [] => true
  | (k, v) :: rest =>
    match y.get? k with
    | some bv =>
      if bv ≠ v then
        if noSkipToken bv v then false
        else StringMapsEqual.loop y ignoredMissingKeys rest
      else StringMapsEqual.loop y ignoredMissingKeys rest
    | none =>
      if !go_slices.Contains ignoredMissingKeys k then false
      else StringMapsEqual.loop y ignoredMissingKeys rest

/-- The Go function `StringMapsEqual`. -/
def StringMapsEqual (a b : StringMap) (ignoredMissingKeys : List String) : Bool :=
  if !StringMapsEqual.loop b ignoredMissingKeys a.entries then false
  else if !StringMapsEqual.loop a ignoredMissingKeys b.entries then false
  else true

/-- One `for k, v := range x` loop of `EnvMapsEqual`, looking each key up in `y`. -/
def EnvMapsEqual.loop (y : StringMap) : List (String × String) → Bool
  | [] => true
  | (k, v) :: rest =>
    if strings.HasPrefix k "env." then
      match y.get? k with
      | some bv =>
        if bv ≠ v then
          if noSkipToken bv v then false
          else EnvMapsEqual.loop y rest
        else EnvMapsEqual.loop y rest
      | none => EnvMapsEqual.loop y rest
    else EnvMapsEqual.loop y rest

/-- The Go function `EnvMapsEqual`. -/
def EnvMapsEqual (a b : StringMap) : Bool :=
  if !EnvMapsEqual.loop b a.entries then false
  else if !EnvMapsEqual.loop a b.entries then false
  else true

/-- Outcome of the inner loop of `SlicesEqual` for one item of `a`. -/
inductive SlicesEqual.Scan where
  | abort : SlicesEqual.Scan
  | found : Nat → SlicesEqual.Scan
  | missing : SlicesEqual.Scan
  deriving DecidableEq, Repr

/-- The inner loop `for j, jb := range b` of `SlicesEqual`, from index `j` on:
`abort` when a comparison returns an error (`return false`), `found j` when
`b[j]` is unused and matches (`used[j] = true; found = true; break`),
`missing` when the loop ends with `found` still false. -/
def SlicesEqual.scan {K : Type} (DeepEquals : K → K → Bool × GoError) (ia : K)
    (used : List Nat) : Nat → List K → SlicesEqual.Scan
  | _, [] => .missing
  | j, jb :: rest =>
    if j ∈ used then SlicesEqual.scan DeepEquals ia used (j + 1) rest
    else
      match DeepEquals ia jb with
      | (_, some _) => .abort
      | (true, none) => .found j
      | (false, none) => SlicesEqual.scan DeepEquals ia used (j + 1) rest

/-- The outer loop `for _, ia := range a` of `SlicesEqual`; `used` holds the
keys of the Go map `used`. -/
def SlicesEqual.loop {K : Type} (DeepEquals : K → K → Bool × GoError) (b : List K) :
    List Nat → List K → Bool
  | _, [] => true
  | used, ia :: rest =>
    match SlicesEqual.scan DeepEquals ia used 0 b with
    | .abort => false
    | .missing => false
    | .found j => SlicesEqual.loop DeepEquals b (j :: used) rest

/-- The Go function `SlicesEqual`, for an element type whose method is `DeepEquals`. -/
def SlicesEqual {K : Type} (DeepEquals : K → K → Bool × GoError) (a b : List K) : Bool :=
  if a.length ≠ b.length then false
  else SlicesEqual.loop DeepEquals b [] a

/-- The inner loop of `SlicesCover`: the final value of `found`. -/
def SlicesCover.found {K : Type} (DeepEquals : K → K → Bool × GoError) (ia : K) :
    List K → Bool
  | [] => false
  | jb :: rest =>
    match DeepEquals ia jb with
    | (true, none) => true
    | _ => SlicesCover.found DeepEquals ia rest

/-- The Go function `SlicesCover`. -/
def SlicesCover {K : Type} (DeepEquals : K → K → Bool × GoError) : List K → List K → Bool
  | [], _ => true
  | ia :: rest, dest =>
    if !SlicesCover.found DeepEquals ia dest then false
    else SlicesCover DeepEquals rest dest

/-- The inner loop of `SlicesAny`: `true` when it executes `return true`. -/
def SlicesAny.inner {K : Type} (DeepEquals : K → K → Bool × GoError) (ia : K) :
    List K → Bool
  | [] => false
  | jb :: rest =>
    match DeepEquals ia jb with
    | (true, none) => true
    | _ => SlicesAny.inner DeepEquals ia rest

/-- The Go function `SlicesAny`. -/
def SlicesAny {K : Type} (DeepEquals : K → K → Bool × GoError) : List K → List K → Bool
  | [], _ => false
  | ia :: rest, dest =>
    if SlicesAny.inner DeepEquals ia dest then true
    else SlicesAny DeepEquals rest dest

/-- The Go function `ResolveString`; `none` is the `nil` pointer. -/
def ResolveString (value : String) (injections : Option ValueInjections) : String :=
  match injections with
  | some inj =>
    let value := strings.ReplaceAll value "$instance()" inj.InstanceId
    let value := strings.ReplaceAll value "$solution()" inj.SolutionId
    let value := strings.ReplaceAll value "$target()" inj.TargetId
    let value := strings.ReplaceAll value "$activation()" inj.ActivationId
    value
  | none => value

/-- Some value-injection token of the specification occurs in `v`. -/
def hasInjectionToken (v : String) : Bool :=
  strings.Contains v "$instance()" || strings.Contains v "$solution()" ||
  strings.Contains v "$target()" || strings.Contains v "$activation()"

/-- One of the three tokens the comparison loops look for occurs in `v`. -/
def hasSkipToken (v : String) : Bool :=
  strings.Contains v "$instance()" || strings.Contains v "$solution()" ||
  strings.Contains v "$target()"

/-- The Go function `CheckProperty`; `EqualFold` is `strings.EqualFold`. -/
def CheckProperty (EqualFold : String → String → Bool) (a b : StringMap) (key : String)
    (ignoreCase : Bool) : Bool :=
  match a.get? key with
  | some va =>
    match b.get? key with
    | some vb =>
      if ignoreCase then EqualFold va vb
      else decide (va = vb)
    | none => false
  | none => true

/-- The Go function `HasSameProperty`. -/
def HasSameProperty (a b : StringMap) (key : String) : Bool :=
  match a.get? key, b.get? key with
  | some va, some vb => decide (va = vb)
  | none, none => true
  | _, _ => false

/-! ## `catalog.go` -/

/-- The struct `ObjectRef`.  A map-typed field is `none` when the Go map is nil. -/
structure ObjectRef where
  SiteId : String
  Name : String
  Group : String
  Version : String
  Kind : String
  Scope : String
  Address : String
  Generation : String
  Metadata : Option StringMap

/-- The struct `CatalogSpec`.  `Props` stands for `map[string]interface{}`; the
field `Type` of the source is `Type_` here, `Type` being reserved. -/
structure CatalogSpec (Props : Type) where
  SiteId : String
  Name : String
  Type_ : String
  Properties : Props
  Metadata : Option StringMap
  ParentName : String
  ObjectRef : ObjectRef
  Generation : String

/-- An argument of interface type `IDeepEquals`: a `CatalogSpec`, or a value of
some other implementing type. -/
inductive IDeepEquals (Props : Type) where
  | catalogSpec : CatalogSpec Props → IDeepEquals Props
  | otherType : IDeepEquals Props

/-- The method `CatalogSpec.DeepEquals`; `reflectDeepEqual` is `reflect.DeepEqual`
on the `Properties` maps. -/
def CatalogSpec.DeepEquals {Props : Type} (reflectDeepEqual : Props → Props → Bool)
    (c : CatalogSpec Props) (other : IDeepEquals Props) : Bool × GoError :=
  match other with
  | .otherType => (false, some "parameter is not a CatalogSpec type")
  | .catalogSpec otherC =>
    if c.SiteId ≠ otherC.SiteId then (false, none)
    else if c.Name ≠ otherC.Name then (false, none)
    else if c.ParentName ≠ otherC.ParentName then (false, none)
    else if c.Generation ≠ otherC.Generation then (false, none)
    else if !reflectDeepEqual c.Properties otherC.Properties then (false, none)
    else (true, none)

/-- The struct `CatalogStatus`. -/
structure CatalogStatus where
  Properties : Option StringMap

/-- The struct `CatalogState`; `Spec` and `Status` are pointers. -/
structure CatalogState (Props : Type) where
  Id : String
  Spec : Option (CatalogSpec Props)
  Status : Option CatalogStatus

/-- The method `CatalogState.GetId`. -/
def CatalogState.GetId {Props : Type} (s : CatalogState Props) : String := s.Id

/-- The method `CatalogState.GetParent`. -/
def CatalogState.GetParent {Props : Type} (s : CatalogState Props) : String :=
  match s.Spec with
  | some spec => spec.ParentName
  | none => ""

/-- The method `CatalogState.GetType`. -/
def CatalogState.GetType {Props : Type} (s : CatalogState Props) : String :=
  match s.Spec with
  | some spec => spec.Type_
  | none => ""

/-- The method `CatalogState.GetFrom`. -/
def CatalogState.GetFrom {Props : Type} (s : CatalogState Props) : String :=
  match s.Spec with
  | some spec =>
    if spec.Type_ = "edge" then
      match spec.Metadata with
      | some metadata =>
        match metadata.get? "from" with
        | some v => v
        | none => ""
      | none => ""
    else ""
  | none => ""

/-- The method `CatalogState.GetTo`. -/
def CatalogState.GetTo {Props : Type} (s : CatalogState Props) : String :=
  match s.Spec with
  | some spec =>
    if spec.Type_ = "edge" then
      match spec.Metadata with
      | some metadata =>
        match metadata.get? "to" with
        | some v => v
        | none => ""
      | none => ""
    else ""
  | none => ""

/-! ## The `coa` package: states, errors, events, requests -/

/-- The response states of `v1alpha2` that the vendors use. -/
inductive v1alpha2.State where
  | OK : v1alpha2.State
  | BadRequest : v1alpha2.State
  | NotFound : v1alpha2.State
  | MethodNotAllowed : v1alpha2.State
  | InternalError : v1alpha2.State
  | MissingConfig : v1alpha2.State
  deriving DecidableEq, Repr

/-- A non-nil Go `error`: the value of `v1alpha2.NewCOAError(nil, message, state)`,
or an error that comes from a manager, a provider or a library. -/
inductive ErrorValue where
  | coa : String → v1alpha2.State → ErrorValue
  | other : String → ErrorValue
  deriving DecidableEq, Repr

/-- How a piece of code ends: it returns a value, or it stops in a runtime panic. -/
inductive Run (α : Type) where
  | done : α → Run α
  | fault : Run α
  deriving DecidableEq, Repr

/-- The Go map read `m[k]`: the zero value `""` when the key is absent. -/
def StringMap.getD (m : StringMap) (k : String) : String :=
  match m.get? k with
  | some v => v
  | none => ""

/-- The Go map write `m[k] = v` on a map that is not nil. -/
def StringMap.insert (m : StringMap) (k v : String) : StringMap :=
  ⟨(k, v) :: m.entries.filter (fun e => e.1 ≠ k),
    List.nodup_cons.2
      ⟨by simp [List.mem_map, List.mem_filter],
        List.Nodup.sublist (List.Sublist.map Prod.fst (List.filter_sublist m.entries))
          m.nodupKeys⟩⟩

/-- The struct `v1alpha2.Event`, with the fields the vendors use; the body is
of interface type and `Metadata` may be nil. -/
structure v1alpha2.Event (β : Type) where
  Metadata : Option StringMap
  Body : β

/-- The struct `v1alpha2.JobData`, with the fields the vendors use. -/
structure v1alpha2.JobData where
  Id : String
  Action : String
  deriving DecidableEq, Repr

/-- The struct `v1alpha2.COARequest`, with the fields the vendors use; reading a
parameter from a nil map is reading from the empty map. -/
structure v1alpha2.COARequest where
  Method : String
  Parameters : StringMap
  Body : String

/-- The struct `v1alpha2.COAResponse`, with the fields the vendors use. -/
structure v1alpha2.COAResponse where
  State : v1alpha2.State
  Body : String
  ContentType : String

/-- The constant `fasthttp.MethodGet`. -/
def fasthttp.MethodGet : String := "GET"

/-- The constant `fasthttp.MethodPost`. -/
def fasthttp.MethodPost : String := "POST"

/-- The constant `fasthttp.MethodDelete`. -/
def fasthttp.MethodDelete : String := "DELETE"

/-- Modelled from the spec: the struct `model.SiteSpec`, which is not among the
sources; a site has a name, an optional public key and the flag `isSelf`. -/
structure SiteSpec where
  Name : String
  IsSelf : Bool
  PublicKey : String
  deriving DecidableEq, Repr

/-- Modelled from the spec: the struct `model.SiteState` as the Sites manager lists
it, an id with the spec of the site. -/
structure SiteState where
  Id : String
  Spec : SiteSpec
  deriving DecidableEq, Repr

/-! ## `federation-vendor.go`: the subscribers set up by `Init` -/

/-- The loop `for _, site := range sites` of the `catalog` subscriber.  The first
argument is the map that `event.Metadata` refers to: every pass writes the site
name into it and hands the event to `StagingManager.HandleJobEvent`, whose result
is dropped.  Returned are the events handed over, in order, and whether the loop
stopped in a panic (a write into a nil map). -/
def FederationVendor.catalogLoop {β : Type} (body : β) :
    Option StringMap → List SiteState → List (v1alpha2.Event β) × Bool
  | _, [] => ([], false)
  | none, _ :: _ => ([], true)
  | some m, site :: rest =>
    let m1 := m.insert "site" site.Spec.Name
    let r := FederationVendor.catalogLoop body (some m1) rest
    ({ Metadata := some m1, Body := body } :: r.1, r.2)

/-- The subscriber of topic `catalog`.  `ListSpec` is the result of
`f.SitesManager.ListSpec`; returned are the calls of `HandleJobEvent` and the
error the subscriber returns (`none` for nil). -/
def FederationVendor.catalogSubscriber {β : Type}
    (ListSpec : Except ErrorValue (List SiteState)) (event : v1alpha2.Event β) :
    List (v1alpha2.Event β) × Run (Option ErrorValue) :=
  match ListSpec with
  | .error err => ([], .done (some err))
  | .ok sites =>
    let r := FederationVendor.catalogLoop event.Body event.Metadata sites
    (r.1, if r.2 then .fault else .done none)

/-- The lookup `_, ok := event.Metadata["site"]`, which also works on a nil map. -/
def v1alpha2.Event.hasMetadata {β : Type} (event : v1alpha2.Event β) (k : String) : Bool :=
  match event.Metadata with
  | some m => (m.get? k).isSome
  | none => false

/-- The subscriber of topic `remote`: the calls of `HandleJobEvent` and the error
returned. -/
def FederationVendor.remoteSubscriber {β : Type} (event : v1alpha2.Event β) :
    List (v1alpha2.Event β) × Option ErrorValue :=
  if !event.hasMetadata "site" then
    ([], some (.coa "site is not supplied" .BadRequest))
  else
    ([event], none)

/-- The subscriber of topic `report`.  `asActivationStatus` is the type assertion
`event.Body.(model.ActivationStatus)`, `SyncActivationStatus` the call of
`utils.SyncActivationStatus` with the fixed endpoint and user.  Returned are the
statuses sent upstream and the error returned. -/
def FederationVendor.reportSubscriber {β Status : Type}
    (asActivationStatus : β → Option Status)
    (SyncActivationStatus : Status → Option ErrorValue) (event : v1alpha2.Event β) :
    List Status × Option ErrorValue :=
  match asActivationStatus event.Body with
  | some status =>
    match SyncActivationStatus status with
    | some err => ([status], some err)
    | none => ([status], some (.coa "report is not an activation status" .BadRequest))
  | none => ([], some (.coa "report is not an activation status" .BadRequest))

/-! ## `federation-vendor.go`: endpoints and handlers -/

/-- The fields of the embedded `vendors.Vendor` that the vendors read: `Version`,
`Route` and the site of the vendor context (`Context.Site`). -/
structure vendors.Vendor where
  Version : String
  Route : String
  Site : String

/-- The handler methods of `FederationVendor`, as they are named in an endpoint. -/
inductive FederationVendor.Handler where
  | onSync : FederationVendor.Handler
  | onRegistry : FederationVendor.Handler
  | onGraph : FederationVendor.Handler
  | onTrail : FederationVendor.Handler
  deriving DecidableEq, Repr

/-- The struct `v1alpha2.Endpoint`; `H` is the type of the handler names. -/
structure v1alpha2.Endpoint (H : Type) where
  Methods : List String
  Route : String
  Version : String
  Handler : H
  Parameters : List String
  deriving DecidableEq, Repr

/-- The method `FederationVendor.GetEndpoints`. -/
def FederationVendor.GetEndpoints (f : vendors.Vendor) :
    List (v1alpha2.Endpoint FederationVendor.Handler) :=
  let route := if f.Route ≠ "" then f.Route else "federation"
  [ { Methods := [fasthttp.MethodPost, fasthttp.MethodGet],
      Route := route ++ "/sync",
      Version := f.Version,
      Handler := .onSync,
      Parameters := ["site?"] },
    { Methods := [fasthttp.MethodPost, fasthttp.MethodGet],
      Route := route ++ "/registry",
      Version := f.Version,
      Handler := .onRegistry,
      Parameters := ["name?"] },
    { Methods := [fasthttp.MethodGet],
      Route := route ++ "/graph",
      Version := f.Version,
      Handler := .onGraph,
      Parameters := ["name?"] },
    { Methods := [fasthttp.MethodPost],
      Route := route ++ "/trail",
      Version := f.Version,
      Handler := .onTrail,
      Parameters := [] } ]

/-- The response every handler gives to a method it does not serve. -/
def methodNotAllowedResponse : v1alpha2.COAResponse :=
  { State := .MethodNotAllowed,
    Body := "\x7b\"result\":\"405 - method not allowed\"\x7d",
    ContentType := "application/json" }

/-- The Sites manager as the vendor calls it, over a registry state `σ`. -/
structure SitesManager (σ : Type) where
  ListSpec : σ → Except ErrorValue (List SiteState)
  GetSpec : σ → String → Except ErrorValue SiteState
  UpsertSpec : σ → String → SiteSpec → σ × Option ErrorValue
  DeleteSpec : σ → String → σ × Option ErrorValue

/-- What `onRegistry` hands to `utils.FormatObject`: the list of all sites or one site. -/
inductive RegistryObject where
  | sites : List SiteState → RegistryObject
  | site : SiteState → RegistryObject

/-- The method `FederationVendor.onRegistry`.  `errText` is `err.Error()`,
`unmarshalSite` is `json.Unmarshal` into a `SiteSpec`, `FormatObject` is
`utils.FormatObject` (its error is dropped). -/
def FederationVendor.onRegistry {σ : Type} (sites : SitesManager σ)
    (errText : ErrorValue → String) (unmarshalSite : String → Except ErrorValue SiteSpec)
    (FormatObject : RegistryObject → Bool → String → String → String)
    (st : σ) (request : v1alpha2.COARequest) : σ × v1alpha2.COAResponse :=
  if request.Method = fasthttp.MethodGet then
    let id := request.Parameters.getD "__name"
    let listed : Except ErrorValue (RegistryObject × Bool) :=
      if id = "" then
        match sites.ListSpec st with
        | .ok l => .ok (.sites l, true)
        | .error err => .error err
      else
        match sites.GetSpec st id with
        | .ok s => .ok (.site s, false)
        | .error err => .error err
    match listed with
    | .error err => (st, { State := .InternalError, Body := errText err, ContentType := "" })
    | .ok (state, isArray) =>
      let jData := FormatObject state isArray (request.Parameters.getD "path")
        (request.Parameters.getD "doc-type")
      let resp : v1alpha2.COAResponse :=
        { State := .OK, Body := jData, ContentType := "application/json" }
      if request.Parameters.getD "doc-type" = "yaml" then
        (st, { resp with ContentType := "application/text" })
      else (st, resp)
  else if request.Method = fasthttp.MethodPost then
    let id := request.Parameters.getD "__name"
    match unmarshalSite request.Body with
    | .error err => (st, { State := .InternalError, Body := errText err, ContentType := "" })
    | .ok site =>
      match sites.UpsertSpec st id site with
      | (st1, some err) =>
        (st1, { State := .InternalError, Body := errText err, ContentType := "" })
      | (st1, none) => (st1, { State := .OK, Body := "", ContentType := "" })
  else if request.Method = fasthttp.MethodDelete then
    let id := request.Parameters.getD "__name"
    match sites.DeleteSpec st id with
    | (st1, some err) =>
      (st1, { State := .InternalError, Body := errText err, ContentType := "" })
    | (st1, none) => (st1, { State := .OK, Body := "", ContentType := "" })
  else (st, methodNotAllowedResponse)

/-- The struct `model.SyncPackage`. -/
structure SyncPackage (Props : Type) where
  Origin : String
  Catalogs : List (CatalogSpec Props)
  Jobs : List v1alpha2.JobData

/-- The loop `for _, c := range batch` of the GET branch of `onSync`, with the
slices `catalogs` and `jobs` built so far.  `GetSpec` is
`f.CatalogsManager.GetSpec`; the loop ends with both slices, with the error of a
lookup, or in a panic when it dereferences a nil `catalog.Spec`. -/
def FederationVendor.onSync.collect {Props : Type}
    (GetSpec : String → Except ErrorValue (CatalogState Props)) :
    List v1alpha2.JobData → List (CatalogSpec Props) → List v1alpha2.JobData →
      Run (Except ErrorValue (List (CatalogSpec Props) × List v1alpha2.JobData))
  | [], catalogs, jobs => .done (.ok (catalogs, jobs))
  | c :: rest, catalogs, jobs =>
    if c.Action = "RUN" then
      FederationVendor.onSync.collect GetSpec rest catalogs (jobs ++ [c])
    else
      match GetSpec c.Id with
      | .error err => .done (.error err)
      | .ok catalog =>
        match catalog.Spec with
        | none => .fault
        | some spec => FederationVendor.onSync.collect GetSpec rest (catalogs ++ [spec]) jobs

/-- The method `FederationVendor.onSync`.  `unmarshalStatus` is `json.Unmarshal`
into an `ActivationStatus`, `Publish` is `f.Vendor.Context.Publish`,
`GetABatchForSite` is the method of the Staging manager, `GetSpec` the one of the
Catalogs manager, `FormatObject` is `utils.FormatObject` (its error is dropped).
Returned are the events published, with their topic, and the response. -/
def FederationVendor.onSync {Props Status : Type} (f : vendors.Vendor)
    (errText : ErrorValue → String) (unmarshalStatus : String → Except ErrorValue Status)
    (Publish : String → v1alpha2.Event Status → Option ErrorValue)
    (GetABatchForSite : String → Except ErrorValue (List v1alpha2.JobData))
    (GetSpec : String → Except ErrorValue (CatalogState Props))
    (FormatObject : SyncPackage Props → Bool → String → String → String)
    (request : v1alpha2.COARequest) :
    List (String × v1alpha2.Event Status) × Run v1alpha2.COAResponse :=
  if request.Method = fasthttp.MethodPost then
    match unmarshalStatus request.Body with
    | .error err => ([], .done { State := .BadRequest, Body := errText err, ContentType := "" })
    | .ok status =>
      let event : v1alpha2.Event Status := { Metadata := none, Body := status }
      match Publish "job-report" event with
      | some err =>
        ([("job-report", event)],
          .done { State := .InternalError, Body := errText err, ContentType := "" })
      | none => ([("job-report", event)], .done { State := .OK, Body := "", ContentType := "" })
  else if request.Method = fasthttp.MethodGet then
    let id := request.Parameters.getD "__site"
    match GetABatchForSite id with
    | .error err => ([], .done { State := .InternalError, Body := errText err, ContentType := "" })
    | .ok batch =>
      match FederationVendor.onSync.collect GetSpec batch [] [] with
      | .fault => ([], .fault)
      | .done (.error err) =>
        ([], .done { State := .InternalError, Body := errText err, ContentType := "" })
      | .done (.ok (catalogs, jobs)) =>
        let pack : SyncPackage Props := { Origin := f.Site, Catalogs := catalogs, Jobs := jobs }
        let jData := FormatObject pack true (request.Parameters.getD "path")
          (request.Parameters.getD "doc-type")
        let resp : v1alpha2.COAResponse :=
          { State := .OK, Body := jData, ContentType := "application/json" }
        if request.Parameters.getD "doc-type" = "yaml" then
          ([], .done { resp with ContentType := "application/text" })
        else ([], .done resp)
  else ([], .done methodNotAllowedResponse)

/-! ## `solution-vendor.go` -/

/-- The map literal `map[string]string{"objectType": objType, "scope": scope}`. -/
def SolutionVendor.jobMetadata (objType scope : String) : StringMap :=
  ⟨[("objectType", objType), ("scope", scope)], by
    show List.Nodup ["objectType", "scope"]
    decide⟩

/-- The method `SolutionVendor.onQueue`.  `GetSummary` is
`c.SolutionManager.GetSummary` (it returns a summary next to its error),
`Marshal` is `json.Marshal` of the summary, `IsNotFound` is `v1alpha2.IsNotFound`.
Returned are the events published, with their topic, and the response; the
result of `Publish` is dropped.  The Go variable `instance` is `inst` here. -/
def SolutionVendor.onQueue {Summary : Type}
    (GetSummary : String → String → Summary × Option ErrorValue)
    (Marshal : Summary → String) (IsNotFound : ErrorValue → Bool)
    (request : v1alpha2.COARequest) :
    List (String × v1alpha2.Event v1alpha2.JobData) × v1alpha2.COAResponse :=
  let scope :=
    match request.Parameters.get? "scope" with
    | some v => v
    | none => "default"
  if request.Method = fasthttp.MethodGet then
    let inst := request.Parameters.getD "instance"
    if inst = "" then
      ([], { State := .BadRequest,
             Body := "\x7b\"result\":\"400 - instance parameter is not found\"\x7d",
             ContentType := "application/json" })
    else
      match GetSummary inst scope with
      | (summary, some err) =>
        if IsNotFound err then
          ([], { State := .NotFound, Body := Marshal summary, ContentType := "" })
        else
          ([], { State := .InternalError, Body := Marshal summary, ContentType := "" })
      | (summary, none) =>
        ([], { State := .OK, Body := Marshal summary, ContentType := "application/json" })
  else if request.Method = fasthttp.MethodPost then
    let inst := request.Parameters.getD "instance"
    let delete := request.Parameters.getD "delete"
    let target := request.Parameters.getD "target"
    if inst = "" then
      ([], { State := .BadRequest,
             Body := "\x7b\"result\":\"400 - instance parameter is not found\"\x7d",
             ContentType := "application/json" })
    else
      let action := if delete = "true" then "DELETE" else "UPDATE"
      let objType := if target = "true" then "target" else "instance"
      ([("job",
          { Metadata := some (SolutionVendor.jobMetadata objType scope),
            Body := { Id := inst, Action := action } })],
        { State := .OK,
          Body := "\x7b\"result\":\"200 - instance reconcilation job accepted\"\x7d",
          ContentType := "application/json" })
  else ([], methodNotAllowedResponse)

/-! ## The managers: `devices-manager.go` and `models-manager.go` -/

/-- A Go value of type `interface{}` as it occurs in the body of a state entry:
nil, a string, a typed spec struct, a `map[string]interface{}`, or a value of some
other dynamic type. -/
inductive AnyValue (S : Type) where
  | nil : AnyValue S
  | str : String → AnyValue S
  | spec : S → AnyValue S
  | dict : List (String × AnyValue S) → AnyValue S
  | other : String → AnyValue S

/-- The read `dict[k]` on a `map[string]interface{}`: nil when the key is absent. -/
def AnyValue.lookup {S : Type} (k : String) : List (String × AnyValue S) → AnyValue S
  | [] => .nil
  | (k1, v1) :: rest => if k1 = k then v1 else AnyValue.lookup k rest

/-- The struct `states.StateEntry`. -/
structure states.StateEntry (S : Type) where
  ID : String
  Body : AnyValue S
  ETag : String

/-- The struct `states.UpsertRequest`, with the fields the managers set. -/
structure states.UpsertRequest (S : Type) where
  Value : states.StateEntry S
  Metadata : StringMap

/-- The struct `states.DeleteRequest`. -/
structure states.DeleteRequest where
  ID : String
  Metadata : StringMap

/-- The struct `states.ListRequest`. -/
structure states.ListRequest where
  Metadata : StringMap

/-- The struct `states.GetRequest`. -/
structure states.GetRequest where
  ID : String
  Metadata : StringMap

/-- The interface `states.IStateProvider`, over a store state `σ`; the paging
token that `List` returns is left out. -/
structure states.IStateProvider (σ S : Type) where
  Upsert : σ → states.UpsertRequest S → σ × Except ErrorValue String
  Delete : σ → states.DeleteRequest → σ × Option ErrorValue
  List : σ → states.ListRequest → Except ErrorValue (List (states.StateEntry S))
  Get : σ → states.GetRequest → Except ErrorValue (states.StateEntry S)

/-- The two calls of `encoding/json` in the decode step: `json.Marshal` of a value
(its error is dropped) and `json.Unmarshal` into the typed spec `R`. -/
structure JSONCodec (S R : Type) where
  Marshal : AnyValue S → String
  Unmarshal : String → Except ErrorValue R

/-- Modelled from the spec: the struct `model.DeviceState`, which is not among the
sources; a state is an id with a pointer to the spec. -/
structure DeviceState (R : Type) where
  Id : String
  Spec : Option R

/-- Modelled from the spec: the struct `model.ModelState`, which is not among the
sources; a state is an id with a pointer to the spec. -/
structure ModelState (R : Type) where
  Id : String
  Spec : Option R

/-- The metadata literal of the `Delete` requests:
`scope`, `group`, `version`, `resource`. -/
def managers.scopedMetadata (group resource : String) : StringMap :=
  ⟨[("scope", ""), ("group", group), ("version", "v1"), ("resource", resource)], by
    show List.Nodup ["scope", "group", "version", "resource"]
    decide⟩

/-- The metadata literal of the `Upsert` requests: `template` and the four keys. -/
def managers.templateMetadata (template group resource : String) : StringMap :=
  ⟨[("template", template), ("scope", ""), ("group", group), ("version", "v1"),
      ("resource", resource)], by
    show List.Nodup ["template", "scope", "group", "version", "resource"]
    decide⟩

/-- The metadata literal of the `List` and `Get` requests:
`version`, `group`, `resource`. -/
def managers.plainMetadata (group resource : String) : StringMap :=
  ⟨[("version", "v1"), ("group", group), ("resource", resource)], by
    show List.Nodup ["version", "group", "resource"]
    decide⟩

/-- The request that `DevicesManager.DeleteSpec` sends; `FabricGroup` is the
constant `model.FabricGroup`. -/
def DevicesManager.deleteRequest (FabricGroup name : String) : states.DeleteRequest :=
  { ID := name, Metadata := managers.scopedMetadata FabricGroup "devices" }

/-- The request that `DevicesManager.UpsertSpec` sends. -/
def DevicesManager.upsertRequest {S : Type} (FabricGroup name : String) (spec : S) :
    states.UpsertRequest S :=
  { Value :=
      { ID := name,
        Body := .dict
          [("apiVersion", .str (FabricGroup ++ "/v1")),
           ("kind", .str "device"),
           ("metadata", .dict [("name", .str name)]),
           ("spec", .spec spec)],
        ETag := "" },
    Metadata := managers.templateMetadata
      ("\x7b\"apiVersion\": \"" ++ FabricGroup ++
        "/v1\", \"kind\": \"Device\", \"metadata\": \x7b\"name\": \"$\x7b\x7b$device()\x7d\x7d\"\x7d\x7d")
      FabricGroup "devices" }

/-- The request that `DevicesManager.ListSpec` sends. -/
def DevicesManager.listRequest (FabricGroup : String) : states.ListRequest :=
  { Metadata := managers.plainMetadata FabricGroup "devices" }

/-- The request that `DevicesManager.GetSpec` sends. -/
def DevicesManager.getRequest (FabricGroup id : String) : states.GetRequest :=
  { ID := id, Metadata := managers.plainMetadata FabricGroup "devices" }

/-- The method `DevicesManager.DeleteSpec`. -/
def DevicesManager.DeleteSpec {σ S : Type} (p : states.IStateProvider σ S)
    (FabricGroup : String) (st : σ) (name : String) : σ × Option ErrorValue :=
  p.Delete st (DevicesManager.deleteRequest FabricGroup name)

/-- The method `DevicesManager.UpsertSpec`. -/
def DevicesManager.UpsertSpec {σ S : Type} (p : states.IStateProvider σ S)
    (FabricGroup : String) (st : σ) (name : String) (spec : S) : σ × Option ErrorValue :=
  match p.Upsert st (DevicesManager.upsertRequest FabricGroup name spec) with
  | (st1, .error err) => (st1, some err)
  | (st1, .ok _) => (st1, none)

/-- The function `getDeviceState`.  The type assertion
`body.(map[string]interface{})` has no `ok` result, so it panics on any other body. -/
def getDeviceState {S R : Type} (codec : JSONCodec S R) (id : String) (body : AnyValue S) :
    Run (Except ErrorValue (DeviceState R)) :=
  match body with
  | .dict dict =>
    let spec := AnyValue.lookup "spec" dict
    let j := codec.Marshal spec
    match codec.Unmarshal j with
    | .error err => .done (.error err)
    | .ok rSpec => .done (.ok { Id := id, Spec := some rSpec })
  | _ => .fault

/-- The loop `for _, t := range solutions` of `DevicesManager.ListSpec`. -/
def DevicesManager.ListSpec.loop {S R : Type} (codec : JSONCodec S R) :
    List (states.StateEntry S) → List (DeviceState R) →
      Run (Except ErrorValue (List (DeviceState R)))
  | [], ret => .done (.ok ret)
  | t :: rest, ret =>
    match getDeviceState codec t.ID t.Body with
    | .fault => .fault
    | .done (.error err) => .done (.error err)
    | .done (.ok rt) => DevicesManager.ListSpec.loop codec rest (ret ++ [rt])

/-- The method `DevicesManager.ListSpec`. -/
def DevicesManager.ListSpec {σ S R : Type} (p : states.IStateProvider σ S)
    (codec : JSONCodec S R) (FabricGroup : String) (st : σ) :
    Run (Except ErrorValue (List (DeviceState R))) :=
  match p.List st (DevicesManager.listRequest FabricGroup) with
  | .error err => .done (.error err)
  | .ok solutions => DevicesManager.ListSpec.loop codec solutions []

/-- The method `DevicesManager.GetSpec`. -/
def DevicesManager.GetSpec {σ S R : Type} (p : states.IStateProvider σ S)
    (codec : JSONCodec S R) (FabricGroup : String) (st : σ) (id : String) :
    Run (Except ErrorValue (DeviceState R)) :=
  match p.Get st (DevicesManager.getRequest FabricGroup id) with
  | .error err => .done (.error err)
  | .ok target =>
    match getDeviceState codec id target.Body with
    | .fault => .fault
    | .done (.error err) => .done (.error err)
    | .done (.ok ret) => .done (.ok ret)

/-- The request that `ModelsManager.DeleteSpec` sends; `AIGroup` is the constant
`model.AIGroup`. -/
def ModelsManager.deleteRequest (AIGroup name : String) : states.DeleteRequest :=
  { ID := name, Metadata := managers.scopedMetadata AIGroup "models" }

/-- The request that `ModelsManager.UpsertSpec` sends. -/
def ModelsManager.upsertRequest {S : Type} (AIGroup name : String) (spec : S) :
    states.UpsertRequest S :=
  { Value :=
      { ID := name,
        Body := .dict
          [("apiVersion", .str (AIGroup ++ "/v1")),
           ("kind", .str "model"),
           ("metadata", .dict [("name", .str name)]),
           ("spec", .spec spec)],
        ETag := "" },
    Metadata := managers.templateMetadata
      ("\x7b\"apiVersion\": \"" ++ AIGroup ++
        "/v1\", \"kind\": \"Model\", \"metadata\": \x7b\"name\": \"$\x7b\x7b$model()\x7d\x7d\"\x7d\x7d")
      AIGroup "models" }

/-- The request that `ModelsManager.ListSpec` sends. -/
def ModelsManager.listRequest (AIGroup : String) : states.ListRequest :=
  { Metadata := managers.plainMetadata AIGroup "models" }

/-- The request that `ModelsManager.GetSpec` sends. -/
def ModelsManager.getRequest (AIGroup id : String) : states.GetRequest :=
  { ID := id, Metadata := managers.plainMetadata AIGroup "models" }

/-- The method `ModelsManager.DeleteSpec`. -/
def ModelsManager.DeleteSpec {σ S : Type} (p : states.IStateProvider σ S)
    (AIGroup : String) (st : σ) (name : String) : σ × Option ErrorValue :=
  p.Delete st (ModelsManager.deleteRequest AIGroup name)

/-- The method `ModelsManager.UpsertSpec`. -/
def ModelsManager.UpsertSpec {σ S : Type} (p : states.IStateProvider σ S)
    (AIGroup : String) (st : σ) (name : String) (spec : S) : σ × Option ErrorValue :=
  match p.Upsert st (ModelsManager.upsertRequest AIGroup name spec) with
  | (st1, .error err) => (st1, some err)
  | (st1, .ok _) => (st1, none)

/-- The function `getModelState`; the entity tag it is given is not used. -/
def getModelState {S R : Type} (codec : JSONCodec S R) (id : String) (body : AnyValue S)
    (_etag : String) : Run (Except ErrorValue (ModelState R)) :=
  match body with
  | .dict dict =>
    let spec := AnyValue.lookup "spec" dict
    let j := codec.Marshal spec
    match codec.Unmarshal j with
    | .error err => .done (.error err)
    | .ok rSpec => .done (.ok { Id := id, Spec := some rSpec })
  | _ => .fault

/-- The loop `for _, t := range models` of `ModelsManager.ListSpec`. -/
def ModelsManager.ListSpec.loop {S R : Type} (codec : JSONCodec S R) :
    List (states.StateEntry S) → List (ModelState R) →
      Run (Except ErrorValue (List (ModelState R)))
  | [], ret => .done (.ok ret)
  | t :: rest, ret =>
    match getModelState codec t.ID t.Body t.ETag with
    | .fault => .fault
    | .done (.error err) => .done (.error err)
    | .done (.ok rt) => ModelsManager.ListSpec.loop codec rest (ret ++ [rt])

/-- The method `ModelsManager.ListSpec`. -/
def ModelsManager.ListSpec {σ S R : Type} (p : states.IStateProvider σ S)
    (codec : JSONCodec S R) (AIGroup : String) (st : σ) :
    Run (Except ErrorValue (List (ModelState R))) :=
  match p.List st (ModelsManager.listRequest AIGroup) with
  | .error err => .done (.error err)
  | .ok models => ModelsManager.ListSpec.loop codec models []

/-- The method `ModelsManager.GetSpec`. -/
def ModelsManager.GetSpec {σ S R : Type} (p : states.IStateProvider σ S)
    (codec : JSONCodec S R) (AIGroup : String) (st : σ) (id : String) :
    Run (Except ErrorValue (ModelState R)) :=
  match p.Get st (ModelsManager.getRequest AIGroup id) with
  | .error err => .done (.error err)
  | .ok m =>
    match getModelState codec id m.Body m.ETag with
    | .fault => .fault
    | .done (.error err) => .done (.error err)
    | .done (.ok ret) => .done (.ok ret)

/-! ## Predicates and concrete values used in the statements -/

/-- What one entry `(k, v)` must satisfy for a loop of `StringMapsEqual` over it
not to return false. -/
def StringMapsEqual.entryOK (y : StringMap) (ign : List String) (k v : String) : Prop :=
  match y.get? k with
  | some bv => bv = v ∨ noSkipToken bv v = false
  | none => k ∈ ign

/-- The map `{"url": "http://$instance()/x"}`. -/
def urlInstanceMap : StringMap := ⟨[("url", "http://$instance()/x")], by decide⟩

/-- The map `{"url": "http://abc/x"}`. -/
def urlPlainMap : StringMap := ⟨[("url", "http://abc/x")], by decide⟩

/-- The map `{"url": "http://$activation()/x"}`. -/
def urlActivationMap : StringMap := ⟨[("url", "http://$activation()/x")], by decide⟩

/-- The map `{"a": "1", "b": "2"}`. -/
def abMap : StringMap := ⟨[("a", "1"), ("b", "2")], by decide⟩

/-- The map `{"a": "1", "c": "3"}`. -/
def acMap : StringMap := ⟨[("a", "1"), ("c", "3")], by decide⟩


/-- The items of `l` (whose first index is `j`) at an index that is not in `used`:
what the inner loop of `SlicesEqual` may still pair an item with. -/
def SlicesEqual.unused {K : Type} (used : List Nat) : Nat → List K → List K
  | _, [] => []
  | j, y :: l =>
    if j ∈ used then SlicesEqual.unused used (j + 1) l
    else y :: SlicesEqual.unused used (j + 1) l

/-- A reflexive and symmetric comparison that is not transitive: `0` compares
equal to everything, as a value holding an injection token does. -/
def wildcardEquals (x y : Nat) : Bool × GoError := (x == y || x == 0 || y == 0, none)

/-- Comparison of natural numbers by equality, never failing. -/
def natEquals (x y : Nat) : Bool × GoError := (x == y, none)

/-- The value-injection tokens that `ResolveString` replaces, in the order in
which it replaces them, as character lists. -/
def injectionTokens : List (List Char) :=
  ["$instance()".data, "$solution()".data, "$target()".data, "$activation()".data]

/-- Every `$` of the text begins one of the tokens `toks`. -/
def dollarsBegin (toks : List (List Char)) : List Char → Bool
  | [] => true
  | c :: cs =>
    (c != '$' || toks.any (fun t => strings.hasPrefixList (c :: cs) t)) && dollarsBegin toks cs

/-- Ids without a `$`, used in the examples. -/
def sampleInjections : ValueInjections :=
  { InstanceId := "i1", SolutionId := "a", TargetId := "t1", ActivationId := "act1" }

/-- The map restricted to the keys that start with `env.`. -/
def StringMap.envOnly (m : StringMap) : StringMap :=
  ⟨m.entries.filter (fun e => strings.HasPrefix e.1 "env."),
    List.Nodup.sublist (List.Sublist.map Prod.fst (List.filter_sublist m.entries)) m.nodupKeys⟩

/-- The map `{"env.A": "1", "name": "x"}`. -/
def envNameMap : StringMap := ⟨[("env.A", "1"), ("name", "x")], by decide⟩

/-- The map `{"env.A": "1", "image": "y", "port": "80"}`. -/
def envImageMap : StringMap := ⟨[("env.A", "1"), ("image", "y"), ("port", "80")], by decide⟩

/-- The map `{"env.A": "2"}`. -/
def envOtherMap : StringMap := ⟨[("env.A", "2")], by decide⟩

/-- A comparison that fails with an error on `0` and is equality elsewhere. -/
def failingEquals (x y : Nat) : Bool × GoError :=
  if x = 0 ∨ y = 0 then (true, some "cannot compare") else (x == y, none)

/-- An `ObjectRef` with every field empty. -/
def emptyObjectRef : ObjectRef :=
  { SiteId := "", Name := "", Group := "", Version := "", Kind := "", Scope := "",
    Address := "", Generation := "", Metadata := none }

/-- A catalog of type `config`, with properties that are a list of key and value. -/
def configCatalog : CatalogSpec (List (String × String)) :=
  { SiteId := "hq", Name := "c1", Type_ := "config", Properties := [("k", "v")],
    Metadata := none, ParentName := "", ObjectRef := emptyObjectRef,
    Generation := "1" }

/-- The catalog `configCatalog` with type `asset` instead. -/
def assetCatalog : CatalogSpec (List (String × String)) :=
  { configCatalog with Type_ := "asset" }

/-- The metadata `{"from": "a", "to": "b"}`. -/
def fromToMap : StringMap := ⟨[("from", "a"), ("to", "b")], by decide⟩

/-- An edge catalog from `a` to `b`. -/
def edgeState : CatalogState (List (String × String)) :=
  { Id := "e1",
    Spec := some { configCatalog with Type_ := "edge", Metadata := some fromToMap },
    Status := none }

/-- The same catalog with type `config`: a node. -/
def nodeState : CatalogState (List (String × String)) :=
  { Id := "n1",
    Spec := some { configCatalog with Metadata := some fromToMap },
    Status := none }

/-- Three registered sites. -/
def threeSites : List SiteState :=
  [{ Id := "s1", Spec := { Name := "edge1", IsSelf := false, PublicKey := "" } },
   { Id := "s2", Spec := { Name := "edge2", IsSelf := false, PublicKey := "" } },
   { Id := "s3", Spec := { Name := "hq", IsSelf := true, PublicKey := "" } }]

/-- The metadata `{"objectType": "catalog"}`. -/
def objectTypeMap : StringMap := ⟨[("objectType", "catalog")], by decide⟩

/-- The metadata `{"site": "edge1"}`. -/
def siteMap : StringMap := ⟨[("site", "edge1")], by decide⟩

/-- A vendor with the default route. -/
def defaultVendor : vendors.Vendor := { Version := "v1alpha2", Route := "", Site := "hq" }

/-- A batch of two catalog entries and one `RUN` job. -/
def sampleBatch : List v1alpha2.JobData :=
  [{ Id := "c1", Action := "UPDATE" }, { Id := "j1", Action := "RUN" },
   { Id := "c2", Action := "UPDATE" }]

/-- A Catalogs manager lookup that finds a catalog named after the id. -/
def sampleGetSpec (id : String) : Except ErrorValue (CatalogState (List (String × String))) :=
  .ok { Id := id, Spec := some { configCatalog with Name := id }, Status := none }

/-- A request to `solution/queue` with the parameters `instance=i1`, `delete=true`. -/
def queueDeleteParams : StringMap := ⟨[("instance", "i1"), ("delete", "true")], by decide⟩

/-- The key under which a state store files an entry: the scope, group and
resource of the request metadata, an absent key reading as the empty string, and
the id. -/
def states.storeKey (metadata : StringMap) (id : String) :
    String × String × String × String :=
  (metadata.getD "scope", metadata.getD "group", metadata.getD "resource", id)

/-- The state store returns the last body upserted under the same
(scope, group, resource, id). -/
def states.ReturnsLastUpsert {σ S : Type} (p : states.IStateProvider σ S) : Prop :=
  ∀ (st : σ) (req : states.UpsertRequest S) (etag : String),
    (p.Upsert st req).2 = .ok etag →
    ∀ greq : states.GetRequest,
      states.storeKey greq.Metadata greq.ID = states.storeKey req.Metadata req.Value.ID →
      ∃ e, p.Get (p.Upsert st req).1 greq = .ok e ∧ e.Body = req.Value.Body

/-- An in-memory state store: the entries, newest first, under their store key. -/
def memoryStore (S : Type) :
    states.IStateProvider (List ((String × String × String × String) × states.StateEntry S)) S :=
  { Upsert := fun st req =>
      ((states.storeKey req.Metadata req.Value.ID, req.Value) :: st, .ok "1"),
    Delete := fun st req =>
      (st.filter (fun e => e.1 ≠ states.storeKey req.Metadata req.ID), none),
    List := fun st _ => .ok (st.map Prod.snd),
    Get := fun st req =>
      match st.find? (fun e => e.1 = states.storeKey req.Metadata req.ID) with
      | some e => .ok e.2
      | none => .error (.coa "entry not found" .NotFound) }

/-- A codec for specs that are plain strings: the text of a spec is the spec, and
every text decodes. -/
def textCodec : JSONCodec String String :=
  { Marshal := fun v =>
      match v with
      | .spec s => s
      | _ => "null",
    Unmarshal := fun j => .ok j }

/-- The metadata holds all four keys: `scope` with the empty string, the group,
version `v1` and the resource. -/
def managers.HasScopedKeys (m : StringMap) (group resource : String) : Prop :=
  m.get? "scope" = some "" ∧ m.get? "group" = some group ∧
  m.get? "version" = some "v1" ∧ m.get? "resource" = some resource

/-- The metadata holds the group, version `v1` and the resource, and no key
`scope`, which therefore reads as the empty string. -/
def managers.HasUnscopedKeys (m : StringMap) (group resource : String) : Prop :=
  m.get? "scope" = none ∧ m.getD "scope" = "" ∧ m.get? "group" = some group ∧
  m.get? "version" = some "v1" ∧ m.get? "resource" = some resource

/-- The map `{"env.A": "1", "env.B": "2"}`. -/
def envABMap : StringMap := ⟨[("env.A", "1"), ("env.B", "2")], by decide⟩

/-- The map `{"env.A": "1", "env.C": "3"}`. -/
def envACMap : StringMap := ⟨[("env.A", "1"), ("env.C", "3")], by decide⟩

/-- Comparison of texts without regard to the case of the letters `a` to `z`. -/
def asciiEqualFold (x y : String) : Bool :=
  decide (x.data.map Char.toLower = y.data.map Char.toLower)

/-- A site named `edge1`. -/
def edgeSite : SiteState :=
  { Id := "s1", Spec := { Name := "edge1", IsSelf := false, PublicKey := "" } }
/-! ## Lookup in a map -/

theorem lookupEntry_of_mem {k v : String} :
    ∀ {l : List (String × String)}, (l.map Prod.fst).Nodup → (k, v) ∈ l →
      lookupEntry k l = some v
  | [], _, h => by cases h
  | (k1, v1) :: rest, hnd, h => by
    rw [List.map_cons, List.nodup_cons] at hnd
    rcases List.mem_cons.1 h with heq | hmem
    · cases heq
      simp [lookupEntry]
    · have hne : k1 ≠ k := by
        intro hk
        subst hk
        exact hnd.1 (List.mem_map.2 ⟨(k1, v), hmem, rfl⟩)
      simp [lookupEntry, hne, lookupEntry_of_mem hnd.2 hmem]

theorem mem_of_lookupEntry {k v : String} :
    ∀ {l : List (String × String)}, lookupEntry k l = some v → (k, v) ∈ l
  | [], h => by cases h
  | (k1, v1) :: rest, h => by
    unfold lookupEntry at h
    split at h
    · rename_i hk
      cases h
      subst hk
      exact List.mem_cons_self _ _
    · exact List.mem_cons_of_mem _ (mem_of_lookupEntry h)

theorem StringMap.get?_eq_some_iff (m : StringMap) (k v : String) :
    m.get? k = some v ↔ (k, v) ∈ m.entries :=
  ⟨mem_of_lookupEntry, lookupEntry_of_mem m.nodupKeys⟩

theorem go_slices.Contains_iff (s : List String) (v : String) :
    go_slices.Contains s v = true ↔ v ∈ s := by
  induction s with
  | nil => simp [go_slices.Contains]
  | cons x rest ih =>
    unfold go_slices.Contains
    by_cases h : x = v
    · simp [h]
    · simp [h, ih, Ne.symm h]

theorem noSkipToken_eq (bv v : String) :
    noSkipToken bv v = (!hasSkipToken bv && !hasSkipToken v) := by
  unfold noSkipToken hasSkipToken
  cases strings.Contains bv "$instance()" <;> cases strings.Contains v "$instance()" <;>
    cases strings.Contains bv "$solution()" <;> cases strings.Contains v "$solution()" <;>
    cases strings.Contains bv "$target()" <;> cases strings.Contains v "$target()" <;> rfl

theorem hasSkipToken_le_hasInjectionToken {v : String} (h : hasInjectionToken v = false) :
    hasSkipToken v = false := by
  unfold hasInjectionToken at h
  unfold hasSkipToken
  simp only [Bool.or_eq_false_iff] at h ⊢
  exact h.1

/-! ## `StringMapsEqual` -/

theorem StringMapsEqual.loop_true_iff (y : StringMap) (ign : List String) :
    ∀ l : List (String × String),
      StringMapsEqual.loop y ign l = true ↔
        ∀ k v, (k, v) ∈ l → StringMapsEqual.entryOK y ign k v
  | [] => by simp [StringMapsEqual.loop]
  | (k, v) :: rest => by
    have ih := StringMapsEqual.loop_true_iff y ign rest
    have hcons : (∀ k1 v1, (k1, v1) ∈ (k, v) :: rest → StringMapsEqual.entryOK y ign k1 v1) ↔
        StringMapsEqual.entryOK y ign k v ∧
          ∀ k1 v1, (k1, v1) ∈ rest → StringMapsEqual.entryOK y ign k1 v1 := by
      constructor
      · intro h
        exact ⟨h k v (List.mem_cons_self _ _), fun k1 v1 hm => h k1 v1 (List.mem_cons_of_mem _ hm)⟩
      · rintro ⟨h1, h2⟩ k1 v1 hm
        rcases List.mem_cons.1 hm with heq | hm
        · cases heq
          exact h1
        · exact h2 k1 v1 hm
    rw [hcons, ← ih]
    cases hget : y.get? k with
    | none =>
      simp only [StringMapsEqual.loop, StringMapsEqual.entryOK, hget]
      by_cases hc : go_slices.Contains ign k = true
      · simp [hc, (go_slices.Contains_iff ign k).1 hc]
      · have hn : k ∉ ign := fun hm => hc ((go_slices.Contains_iff ign k).2 hm)
        simp [hc, hn]
    | some bv =>
      simp only [StringMapsEqual.loop, StringMapsEqual.entryOK, hget]
      by_cases hne : bv = v
      · simp [hne]
      · cases hs : noSkipToken bv v <;> simp [hne, hs]

theorem StringMapsEqual_iff (a b : StringMap) (ign : List String) :
    StringMapsEqual a b ign = true ↔
      (∀ k v, a.get? k = some v → StringMapsEqual.entryOK b ign k v) ∧
      (∀ k v, b.get? k = some v → StringMapsEqual.entryOK a ign k v) := by
  unfold StringMapsEqual
  have ha := StringMapsEqual.loop_true_iff b ign a.entries
  have hb := StringMapsEqual.loop_true_iff a ign b.entries
  simp only [← StringMap.get?_eq_some_iff] at ha hb
  rw [← ha, ← hb]
  cases StringMapsEqual.loop b ign a.entries <;>
    cases StringMapsEqual.loop a ign b.entries <;> simp

theorem StringMap.get?_single (k v : String) (h : ([(k, v)].map Prod.fst).Nodup) (q : String) :
    (StringMap.mk [(k, v)] h).get? q = if k = q then some v else none := rfl

/-- C1 as stated fails: the maps `{"url": "http://$activation()/x"}` and
`{"url": "http://abc/x"}` have the same key set and the first value contains the
token `$activation()`, yet `StringMapsEqual` returns false. -/
theorem StringMapsEqual_activation_counterexample :
    (∀ k, (urlActivationMap.get? k).isSome = (urlPlainMap.get? k).isSome) ∧
    (∀ k va vb, urlActivationMap.get? k = some va → urlPlainMap.get? k = some vb →
      va = vb ∨ hasInjectionToken va = true ∨ hasInjectionToken vb = true) ∧
    StringMapsEqual urlActivationMap urlPlainMap [] = false := by
  refine ⟨?_, ?_, by decide⟩
  · intro k
    simp only [urlActivationMap, urlPlainMap, StringMap.get?_single]
    split <;> rfl
  · intro k va vb ha _
    simp only [urlActivationMap, StringMap.get?_single] at ha
    split at ha
    · cases ha
      exact Or.inr (Or.inl (by decide))
    · cases ha

/-- C1 (amended): for maps `a` and `b` with the same key set and every
`ignoredMissingKeys`, if for every key the two values are identical or at least
one of them contains one of `$instance()`, `$solution()`, `$target()`, then
`StringMapsEqual(a, b, ignoredMissingKeys)` returns true. -/
theorem StringMapsEqual_of_same_keys_skip (a b : StringMap) (ign : List String)
    (hkeys : ∀ k, (a.get? k).isSome = (b.get? k).isSome)
    (hvals : ∀ k va vb, a.get? k = some va → b.get? k = some vb →
      va = vb ∨ hasSkipToken va = true ∨ hasSkipToken vb = true) :
    StringMapsEqual a b ign = true := by
  rw [StringMapsEqual_iff]
  constructor
  · intro k v hav
    unfold StringMapsEqual.entryOK
    have hk := hkeys k
    cases hb : b.get? k with
    | none => simp [hav, hb] at hk
    | some bv =>
      show bv = v ∨ noSkipToken bv v = false
      rcases hvals k v bv hav hb with h | h | h
      · exact Or.inl h.symm
      · exact Or.inr (by simp [noSkipToken_eq, h])
      · exact Or.inr (by simp [noSkipToken_eq, h])
  · intro k v hbv
    unfold StringMapsEqual.entryOK
    have hk := hkeys k
    cases ha : a.get? k with
    | none => simp [hbv, ha] at hk
    | some av =>
      show av = v ∨ noSkipToken av v = false
      rcases hvals k av v ha hbv with h | h | h
      · exact Or.inl h
      · exact Or.inr (by simp [noSkipToken_eq, h])
      · exact Or.inr (by simp [noSkipToken_eq, h])

/-- The amended C1 at `{"url": "http://$instance()/x"}` against `{"url": "http://abc/x"}`. -/
theorem StringMapsEqual_of_same_keys_skip_witness :
    (∀ k, (urlInstanceMap.get? k).isSome = (urlPlainMap.get? k).isSome) ∧
    (∀ k va vb, urlInstanceMap.get? k = some va → urlPlainMap.get? k = some vb →
      va = vb ∨ hasSkipToken va = true ∨ hasSkipToken vb = true) ∧
    StringMapsEqual urlInstanceMap urlPlainMap [] = true :=
  have hkeys : ∀ k, (urlInstanceMap.get? k).isSome = (urlPlainMap.get? k).isSome := by
    intro k
    simp only [urlInstanceMap, urlPlainMap, StringMap.get?_single]
    split <;> rfl
  have hvals : ∀ k va vb, urlInstanceMap.get? k = some va → urlPlainMap.get? k = some vb →
      va = vb ∨ hasSkipToken va = true ∨ hasSkipToken vb = true := by
    intro k va vb ha _
    simp only [urlInstanceMap, StringMap.get?_single] at ha
    split at ha
    · cases ha
      exact Or.inr (Or.inl (by decide))
    · cases ha
  ⟨hkeys, hvals, StringMapsEqual_of_same_keys_skip urlInstanceMap urlPlainMap [] hkeys hvals⟩

theorem noSkipToken_of_no_tokens {bv v : String} (hbv : hasInjectionToken bv = false)
    (hv : hasInjectionToken v = false) : noSkipToken bv v = true := by
  rw [noSkipToken_eq, hasSkipToken_le_hasInjectionToken hbv,
    hasSkipToken_le_hasInjectionToken hv]
  rfl

/-- C4: for maps whose values contain no value-injection token, and every list
`ignoredMissingKeys`, `StringMapsEqual` returns true exactly when every key
present in both maps has identical values and every key present in exactly one
of the maps is in `ignoredMissingKeys`; with the empty list this is equality of
the two maps (the same lookup result at every key). -/
theorem StringMapsEqual_iff_of_no_tokens (a b : StringMap) (ign : List String)
    (ha : ∀ k v, a.get? k = some v → hasInjectionToken v = false)
    (hb : ∀ k v, b.get? k = some v → hasInjectionToken v = false) :
    (StringMapsEqual a b ign = true ↔
      (∀ k va vb, a.get? k = some va → b.get? k = some vb → va = vb) ∧
      (∀ k, (a.get? k).isSome ≠ (b.get? k).isSome → k ∈ ign)) ∧
    (StringMapsEqual a b [] = true ↔ ∀ k, a.get? k = b.get? k) := by
  have main : ∀ ign : List String, StringMapsEqual a b ign = true ↔
      (∀ k va vb, a.get? k = some va → b.get? k = some vb → va = vb) ∧
      (∀ k, (a.get? k).isSome ≠ (b.get? k).isSome → k ∈ ign) := by
    intro ign
    rw [StringMapsEqual_iff]
    constructor
    · rintro ⟨h1, h2⟩
      constructor
      · intro k va vb hka hkb
        have h := h1 k va hka
        simp only [StringMapsEqual.entryOK, hkb] at h
        rcases h with h | h
        · exact h.symm
        · rw [noSkipToken_of_no_tokens (hb k vb hkb) (ha k va hka)] at h
          cases h
      · intro k hk
        cases hka : a.get? k with
        | none =>
          cases hkb : b.get? k with
          | none => simp [hka, hkb] at hk
          | some vb =>
            have h := h2 k vb hkb
            simpa only [StringMapsEqual.entryOK, hka] using h
        | some va =>
          cases hkb : b.get? k with
          | none =>
            have h := h1 k va hka
            simpa only [StringMapsEqual.entryOK, hkb] using h
          | some vb => simp [hka, hkb] at hk
    · rintro ⟨h1, h2⟩
      constructor
      · intro k v hka
        unfold StringMapsEqual.entryOK
        cases hkb : b.get? k with
        | none => exact h2 k (by simp [hka, hkb])
        | some vb => exact Or.inl (h1 k v vb hka hkb).symm
      · intro k v hkb
        unfold StringMapsEqual.entryOK
        cases hka : a.get? k with
        | none => exact h2 k (by simp [hka, hkb])
        | some va => exact Or.inl (h1 k va v hka hkb)
  refine ⟨main ign, ?_⟩
  rw [main []]
  constructor
  · rintro ⟨h1, h2⟩ k
    cases hka : a.get? k with
    | none =>
      cases hkb : b.get? k with
      | none => rfl
      | some vb => exact absurd (h2 k (by simp [hka, hkb])) (List.not_mem_nil k)
    | some va =>
      cases hkb : b.get? k with
      | none => exact absurd (h2 k (by simp [hka, hkb])) (List.not_mem_nil k)
      | some vb => rw [h1 k va vb hka hkb]
  · intro h
    constructor
    · intro k va vb hka hkb
      rw [h k, hkb] at hka
      exact (Option.some.inj hka).symm
    · intro k hk
      rw [h k] at hk
      exact absurd rfl hk

theorem abMap_no_tokens : ∀ k v, abMap.get? k = some v → hasInjectionToken v = false := by
  intro k v h
  have hm := (StringMap.get?_eq_some_iff abMap k v).1 h
  simp only [abMap, List.mem_cons, List.mem_singleton, Prod.mk.injEq, List.not_mem_nil,
    or_false] at hm
  rcases hm with ⟨_, rfl⟩ | ⟨_, rfl⟩ <;> decide

theorem acMap_no_tokens : ∀ k v, acMap.get? k = some v → hasInjectionToken v = false := by
  intro k v h
  have hm := (StringMap.get?_eq_some_iff acMap k v).1 h
  simp only [acMap, List.mem_cons, List.mem_singleton, Prod.mk.injEq, List.not_mem_nil,
    or_false] at hm
  rcases hm with ⟨_, rfl⟩ | ⟨_, rfl⟩ <;> decide

/-- C4 at `{"a": "1", "b": "2"}` against `{"a": "1", "c": "3"}`, ignoring `b` and `c`. -/
theorem StringMapsEqual_iff_of_no_tokens_witness :
    (StringMapsEqual abMap acMap ["b", "c"] = true ↔
      (∀ k va vb, abMap.get? k = some va → acMap.get? k = some vb → va = vb) ∧
      (∀ k, (abMap.get? k).isSome ≠ (acMap.get? k).isSome → k ∈ ["b", "c"])) ∧
    (StringMapsEqual abMap acMap [] = true ↔ ∀ k, abMap.get? k = acMap.get? k) :=
  StringMapsEqual_iff_of_no_tokens abMap acMap ["b", "c"] abMap_no_tokens acMap_no_tokens

theorem StringMapsEqual_examples :
    StringMapsEqual abMap acMap ["b", "c"] = true ∧ StringMapsEqual abMap acMap ["b"] = false ∧
    StringMapsEqual abMap acMap [] = false ∧ StringMapsEqual abMap abMap [] = true := by
  decide

/-! ## `SlicesEqual` -/

theorem SlicesEqual.scan_found {K : Type} (deq : K → K → Bool × GoError) (ia : K)
    (used : List Nat) :
    ∀ (l : List K) (j0 j : Nat), SlicesEqual.scan deq ia used j0 l = .found j →
      j0 ≤ j ∧ j ∉ used ∧ ∃ y, l[j - j0]? = some y ∧ deq ia y = (true, none)
  | [], j0, j, h => by simp [SlicesEqual.scan] at h
  | jb :: rest, j0, j, h => by
    have ih := SlicesEqual.scan_found deq ia used rest (j0 + 1) j
    have step : j0 + 1 ≤ j ∧ j ∉ used ∧ (∃ y, rest[j - (j0 + 1)]? = some y ∧
        deq ia y = (true, none)) →
        j0 ≤ j ∧ j ∉ used ∧ ∃ y, (jb :: rest)[j - j0]? = some y ∧ deq ia y = (true, none) := by
      rintro ⟨h1, h2, y, h3, h4⟩
      refine ⟨by omega, h2, y, ?_, h4⟩
      have : j - j0 = (j - (j0 + 1)) + 1 := by omega
      rw [this, List.getElem?_cons_succ]
      exact h3
    rw [SlicesEqual.scan] at h
    by_cases hu : j0 ∈ used
    · rw [if_pos hu] at h
      exact step (ih h)
    · rw [if_neg hu] at h
      rcases hd : deq ia jb with ⟨t, e⟩
      rw [hd] at h
      cases e with
      | some msg => simp at h
      | none =>
        cases t with
        | true =>
          simp only [SlicesEqual.Scan.found.injEq] at h
          subst h
          exact ⟨le_refl _, hu, jb, by simp, hd⟩
        | false => exact step (ih h)

theorem SlicesEqual.unused_cons_of_lt {K : Type} (used : List Nat) (j : Nat) :
    ∀ (l : List K) (j0 : Nat), j < j0 →
      SlicesEqual.unused (j :: used) j0 l = SlicesEqual.unused used j0 l
  | [], _, _ => rfl
  | y :: l, j0, h => by
    have ih := SlicesEqual.unused_cons_of_lt used j l (j0 + 1) (by omega)
    have hne : j0 ≠ j := by omega
    simp only [SlicesEqual.unused, List.mem_cons, hne, false_or, ih]

theorem SlicesEqual.scan_found_countP {K : Type} (deq : K → K → Bool × GoError) (ia : K)
    (used : List Nat) :
    ∀ (l : List K) (j0 j : Nat), SlicesEqual.scan deq ia used j0 l = .found j →
      ∃ y, deq ia y = (true, none) ∧ ∀ p : K → Bool,
        (SlicesEqual.unused used j0 l).countP p =
          (SlicesEqual.unused (j :: used) j0 l).countP p + (if p y then 1 else 0)
  | [], j0, j, h => by simp [SlicesEqual.scan] at h
  | jb :: rest, j0, j, h => by
    have ih := SlicesEqual.scan_found_countP deq ia used rest (j0 + 1) j
    have hge := SlicesEqual.scan_found deq ia used rest (j0 + 1) j
    rw [SlicesEqual.scan] at h
    by_cases hu : j0 ∈ used
    · rw [if_pos hu] at h
      obtain ⟨y, hy, hc⟩ := ih h
      refine ⟨y, hy, fun p => ?_⟩
      simp only [SlicesEqual.unused, List.mem_cons, hu, or_true, if_true]
      exact hc p
    · rw [if_neg hu] at h
      rcases hd : deq ia jb with ⟨t, e⟩
      rw [hd] at h
      cases e with
      | some msg => simp at h
      | none =>
        cases t with
        | true =>
          simp only [SlicesEqual.Scan.found.injEq] at h
          subst h
          refine ⟨jb, hd, fun p => ?_⟩
          simp only [SlicesEqual.unused, List.mem_cons, hu, true_or, if_true, if_false]
          rw [SlicesEqual.unused_cons_of_lt used j0 rest (j0 + 1) (by omega), List.countP_cons]
        | false =>
          obtain ⟨y, hy, hc⟩ := ih h
          have hne : j0 ≠ j := by
            have := (hge h).1
            omega
          refine ⟨y, hy, fun p => ?_⟩
          simp only [SlicesEqual.unused, List.mem_cons, hu, hne, or_self, if_false,
            List.countP_cons, hc p]
          omega

theorem SlicesEqual.scan_missing {K : Type} (deq : K → K → Bool × GoError) (ia : K)
    (used : List Nat) :
    ∀ (l : List K) (j0 : Nat), SlicesEqual.scan deq ia used j0 l = .missing →
      ∀ y ∈ SlicesEqual.unused used j0 l, deq ia y = (false, none)
  | [], _, _ => by simp [SlicesEqual.unused]
  | jb :: rest, j0, h => by
    have ih := SlicesEqual.scan_missing deq ia used rest (j0 + 1)
    rw [SlicesEqual.scan] at h
    by_cases hu : j0 ∈ used
    · rw [if_pos hu] at h
      simpa only [SlicesEqual.unused, hu, if_true] using ih h
    · rw [if_neg hu] at h
      rcases hd : deq ia jb with ⟨t, e⟩
      rw [hd] at h
      cases e with
      | some msg => simp at h
      | none =>
        cases t with
        | true => simp at h
        | false =>
          intro y hy
          simp only [SlicesEqual.unused, hu, if_false, List.mem_cons] at hy
          rcases hy with rfl | hy
          · exact hd
          · exact ih h y hy

theorem SlicesEqual.scan_abort {K : Type} (deq : K → K → Bool × GoError) (ia : K)
    (used : List Nat) :
    ∀ (l : List K) (j0 : Nat), SlicesEqual.scan deq ia used j0 l = .abort →
      ∃ y ∈ l, (deq ia y).2 ≠ none
  | [], _, h => by simp [SlicesEqual.scan] at h
  | jb :: rest, j0, h => by
    have ih := SlicesEqual.scan_abort deq ia used rest (j0 + 1)
    rw [SlicesEqual.scan] at h
    by_cases hu : j0 ∈ used
    · rw [if_pos hu] at h
      obtain ⟨y, hy, he⟩ := ih h
      exact ⟨y, List.mem_cons_of_mem _ hy, he⟩
    · rw [if_neg hu] at h
      rcases hd : deq ia jb with ⟨t, e⟩
      rw [hd] at h
      cases e with
      | some msg => exact ⟨jb, List.mem_cons_self _ _, by simp [hd]⟩
      | none =>
        cases t with
        | true => simp at h
        | false =>
          obtain ⟨y, hy, he⟩ := ih h
          exact ⟨y, List.mem_cons_of_mem _ hy, he⟩

/-- What the outer loop has established when it returns true: the indices it
marked, one for each item of `a` in order, are pairwise distinct, were unused
before, and each holds an item of `b` that the item of `a` matches. -/
theorem SlicesEqual.loop_sound {K : Type} (deq : K → K → Bool × GoError) (b : List K) :
    ∀ (a : List K) (used : List Nat), SlicesEqual.loop deq b used a = true →
      ∃ js : List Nat, js.Nodup ∧ (∀ j ∈ js, j ∉ used ∧ j < b.length) ∧
        List.Forall₂ (fun x j => ∃ y, b[j]? = some y ∧ deq x y = (true, none)) a js
  | [], _, _ => ⟨[], List.nodup_nil, by simp, List.Forall₂.nil⟩
  | ia :: rest, used, h => by
    rw [SlicesEqual.loop] at h
    cases hs : SlicesEqual.scan deq ia used 0 b with
    | abort => simp [hs] at h
    | missing => simp [hs] at h
    | found j =>
      simp only [hs] at h
      obtain ⟨js, hnd, hmem, hall⟩ := SlicesEqual.loop_sound deq b rest (j :: used) h
      obtain ⟨_, hju, y, hy, hdeq⟩ := SlicesEqual.scan_found deq ia used b 0 j hs
      have hjlt : j < b.length := by
        rw [Nat.sub_zero] at hy
        by_contra hge
        rw [List.getElem?_eq_none (by omega)] at hy
        cases hy
      refine ⟨j :: js, List.nodup_cons.2 ⟨?_, hnd⟩, ?_, List.Forall₂.cons ⟨y, by simpa using hy, hdeq⟩ hall⟩
      · intro hj
        exact (hmem j hj).1 (List.mem_cons_self _ _)
      · intro k hk
        rcases List.mem_cons.1 hk with rfl | hk
        · exact ⟨hju, hjlt⟩
        · exact ⟨fun hu => (hmem k hk).1 (List.mem_cons_of_mem _ hu), (hmem k hk).2⟩

theorem SlicesEqual_length_eq {K : Type} (deq : K → K → Bool × GoError) (a b : List K)
    (h : SlicesEqual deq a b = true) : a.length = b.length := by
  unfold SlicesEqual at h
  by_cases hlen : a.length = b.length
  · exact hlen
  · simp [hlen] at h

/-- C3 as stated fails: with the comparison `wildcardEquals` the slices `[0, 1]`
and `[1, 2]` have the same length and the one-to-one pairing `0 ↦ 1`, `1 ↦ 0` of
positions in which every pair compares `(true, nil)`, yet `SlicesEqual` returns
false; and it returns true once the second slice is reordered to `[2, 1]`. -/
theorem SlicesEqual_pairing_counterexample :
    SlicesEqual wildcardEquals [0, 1] [1, 2] = false ∧
    ([0, 1].length = [1, 2].length ∧
      ∃ f : Fin 2 → Fin 2, Function.Injective f ∧
        ∀ i, wildcardEquals ([0, 1].get i) ([1, 2].get (f i)) = (true, none)) ∧
    SlicesEqual wildcardEquals [0, 1] [2, 1] = true := by
  refine ⟨by decide, ⟨rfl, fun i => if i = 0 then 1 else 0, ?_, ?_⟩, by decide⟩
  · intro i j
    fin_cases i <;> fin_cases j <;> simp
  · intro i
    fin_cases i <;> decide

/-- C3 (amended): for every element type and all slices `a` and `b`, if
`SlicesEqual(a, b)` returns true then the slices have the same length and there
is a one-to-one pairing of the positions of `a` with the positions of `b` in
which every paired `a[i].DeepEquals(b[j])` returns `(true, nil)`. -/
theorem SlicesEqual_pairing {K : Type} (deq : K → K → Bool × GoError) (a b : List K)
    (h : SlicesEqual deq a b = true) :
    a.length = b.length ∧
      ∃ f : Fin a.length → Fin b.length, Function.Injective f ∧
        ∀ i, deq (a.get i) (b.get (f i)) = (true, none) := by
  unfold SlicesEqual at h
  by_cases hlen : a.length = b.length
  · refine ⟨hlen, ?_⟩
    simp only [hlen, ne_eq, not_true_eq_false, if_false] at h
    obtain ⟨js, hnd, hmem, hall⟩ := SlicesEqual.loop_sound deq b a [] h
    obtain ⟨hl, hget⟩ := List.forall₂_iff_get.1 hall
    have hlt : ∀ i : Fin a.length, js.get ⟨i.1, hl ▸ i.2⟩ < b.length := fun i =>
      (hmem _ (List.get_mem js _ _)).2
    refine ⟨fun i => ⟨js.get ⟨i.1, hl ▸ i.2⟩, hlt i⟩, ?_, ?_⟩
    · intro i1 i2 hi
      have hi2 : js.get ⟨i1.1, hl ▸ i1.2⟩ = js.get ⟨i2.1, hl ▸ i2.2⟩ := by
        simpa using congrArg Fin.val hi
      have := (List.Nodup.get_inj_iff hnd).1 hi2
      exact Fin.ext (by simpa using congrArg Fin.val this)
    · intro i
      obtain ⟨y, hy, hdeq⟩ := hget i.1 i.2 (hl ▸ i.2)
      have hb : b.get ⟨js.get ⟨i.1, hl ▸ i.2⟩, hlt i⟩ = y := by
        have h2 := List.getElem?_eq_getElem (hlt i)
        rw [h2] at hy
        simpa using hy
      rw [hb]
      exact hdeq
  · simp [hlen] at h

/-- The amended C3 at `[0, 1]` against `[2, 1]` under `wildcardEquals`. -/
theorem SlicesEqual_pairing_witness :
    SlicesEqual wildcardEquals [0, 1] [2, 1] = true ∧
    ([0, 1].length = [2, 1].length ∧
      ∃ f : Fin [0, 1].length → Fin [2, 1].length, Function.Injective f ∧
        ∀ i, wildcardEquals ([0, 1].get i) ([2, 1].get (f i)) = (true, none)) :=
  ⟨by decide, SlicesEqual_pairing wildcardEquals [0, 1] [2, 1] (by decide)⟩

theorem countP_range_getElem? {K : Type} (q : K → Bool) :
    ∀ l : List K, (List.range l.length).countP (fun j => (l[j]?).any q) = l.countP q
  | [] => rfl
  | y :: l => by
    have ih := countP_range_getElem? q l
    rw [List.length_cons, List.range_succ_eq_map, List.countP_cons, List.countP_cons,
      List.countP_map, ← ih]
    have hfun : ((fun j => (((y :: l)[j]?).any q)) ∘ Nat.succ) = fun j => ((l[j]?).any q) := by
      funext j
      simp
    rw [hfun]
    simp

theorem SlicesEqual.countP_of_forall₂ {K : Type} (deq : K → K → Bool × GoError)
    (heq : Equivalence (fun x y => (deq x y).1 = true)) (b : List K) (x0 : K)
    (a : List K) (js : List Nat)
    (hall : List.Forall₂ (fun x j => ∃ y, b[j]? = some y ∧ deq x y = (true, none)) a js) :
    a.countP (fun x => (deq x0 x).1) =
      js.countP (fun j => (b[j]?).any (fun y => (deq x0 y).1)) := by
  induction hall with
  | nil => rfl
  | cons hx _ ih =>
    rename_i x j _ _ _
    obtain ⟨y, hy, hdeq⟩ := hx
    have hxy : (deq x y).1 = true := by rw [hdeq]
    have hiff : (deq x0 x).1 = (deq x0 y).1 := by
      cases h1 : (deq x0 x).1 with
      | true => exact (heq.trans h1 hxy).symm
      | false =>
        cases h2 : (deq x0 y).1 with
        | false => rfl
        | true => rw [heq.trans h2 (heq.symm hxy)] at h1; cases h1
    rw [List.countP_cons, List.countP_cons, ih, hy, Option.any_some, hiff]

theorem SlicesEqual.loop_complete {K : Type} (deq : K → K → Bool × GoError)
    (hne : ∀ x y, (deq x y).2 = none)
    (heq : Equivalence (fun x y => (deq x y).1 = true)) (b : List K) :
    ∀ (a : List K) (used : List Nat),
      (∀ x, a.countP (fun y => (deq x y).1) ≤
        (SlicesEqual.unused used 0 b).countP (fun y => (deq x y).1)) →
      SlicesEqual.loop deq b used a = true
  | [], _, _ => rfl
  | ia :: rest, used, hle => by
    rw [SlicesEqual.loop]
    cases hs : SlicesEqual.scan deq ia used 0 b with
    | abort =>
      obtain ⟨y, _, he⟩ := SlicesEqual.scan_abort deq ia used b 0 hs
      exact absurd (hne ia y) he
    | missing =>
      have hmiss := SlicesEqual.scan_missing deq ia used b 0 hs
      have hzero : (SlicesEqual.unused used 0 b).countP (fun y => (deq ia y).1) = 0 := by
        rw [List.countP_eq_zero]
        intro y hy
        rw [hmiss y hy]
        simp
      have hpos := hle ia
      rw [hzero, List.countP_cons] at hpos
      have hrefl : (deq ia ia).1 = true := heq.refl ia
      simp [hrefl] at hpos
    | found j =>
      show SlicesEqual.loop deq b (j :: used) rest = true
      obtain ⟨y, hdeq, hcount⟩ := SlicesEqual.scan_found_countP deq ia used b 0 j hs
      have hiy : (deq ia y).1 = true := by rw [hdeq]
      apply SlicesEqual.loop_complete deq hne heq b rest (j :: used)
      intro x
      have h1 := hle x
      rw [List.countP_cons, hcount] at h1
      have hiff : (deq x ia).1 = (deq x y).1 := by
        cases h1 : (deq x ia).1 with
        | true => exact (heq.trans h1 hiy).symm
        | false =>
          cases h2 : (deq x y).1 with
          | false => rfl
          | true => rw [heq.trans h2 (heq.symm hiy)] at h1; cases h1
      rw [hiff] at h1
      omega

theorem SlicesEqual.unused_nil {K : Type} :
    ∀ (l : List K) (j0 : Nat), SlicesEqual.unused [] j0 l = l
  | [], _ => rfl
  | y :: l, j0 => by
    simp only [SlicesEqual.unused, List.not_mem_nil, if_false,
      SlicesEqual.unused_nil l (j0 + 1)]

theorem natEquals_equivalence : Equivalence (fun x y : Nat => (natEquals x y).1 = true) := by
  refine ⟨fun x => ?_, fun h => ?_, fun h1 h2 => ?_⟩
  · simp [natEquals]
  · simp only [natEquals, beq_iff_eq] at h ⊢
    exact h.symm
  · simp only [natEquals, beq_iff_eq] at h1 h2 ⊢
    exact h1.trans h2

/-- C2: when `DeepEquals` never returns an error and is an equivalence relation,
`SlicesEqual(a, b)` returns true exactly when the slices have equal length and
every equivalence class has as many members in `a` as in `b`. -/
theorem SlicesEqual_iff_rearrangement {K : Type} (deq : K → K → Bool × GoError)
    (hne : ∀ x y, (deq x y).2 = none)
    (heq : Equivalence (fun x y => (deq x y).1 = true)) (a b : List K) :
    SlicesEqual deq a b = true ↔
      a.length = b.length ∧
        ∀ x, a.countP (fun y => (deq x y).1) = b.countP (fun y => (deq x y).1) := by
  constructor
  · intro h
    have hlen := (SlicesEqual_length_eq deq a b h)
    unfold SlicesEqual at h
    simp only [hlen, ne_eq, not_true_eq_false, if_false] at h
    refine ⟨hlen, fun x => ?_⟩
    obtain ⟨js, hnd, hmem, hall⟩ := SlicesEqual.loop_sound deq b a [] h
    have hjs : js.length = b.length := by rw [← hall.length_eq, hlen]
    have hperm : js.Perm (List.range b.length) := by
      apply List.Subperm.perm_of_length_le
      · exact List.subperm_of_subset hnd (fun j hj => List.mem_range.2 (hmem j hj).2)
      · rw [List.length_range, hjs]
    rw [SlicesEqual.countP_of_forall₂ deq heq b x a js hall, hperm.countP_eq,
      countP_range_getElem?]
  · rintro ⟨hlen, hcount⟩
    unfold SlicesEqual
    simp only [hlen, ne_eq, not_true_eq_false, if_false]
    apply SlicesEqual.loop_complete deq hne heq
    intro x
    rw [SlicesEqual.unused_nil, hcount x]

/-- C2 at `[1, 2, 3]` against `[3, 2, 1]` under equality of numbers. -/
theorem SlicesEqual_iff_rearrangement_witness :
    (∀ x y, (natEquals x y).2 = none) ∧
    Equivalence (fun x y : Nat => (natEquals x y).1 = true) ∧
    (SlicesEqual natEquals [1, 2, 3] [3, 2, 1] = true ↔
      [1, 2, 3].length = [3, 2, 1].length ∧
        ∀ x, [1, 2, 3].countP (fun y => (natEquals x y).1) =
          [3, 2, 1].countP (fun y => (natEquals x y).1)) :=
  ⟨fun _ _ => rfl, natEquals_equivalence,
    SlicesEqual_iff_rearrangement natEquals (fun _ _ => rfl) natEquals_equivalence
      [1, 2, 3] [3, 2, 1]⟩

theorem SlicesEqual_abc_cba : SlicesEqual natEquals [1, 2, 3] [3, 2, 1] = true := by decide

theorem SlicesEqual_aab_abb : SlicesEqual natEquals [1, 1, 2] [1, 2, 2] = false := by decide

/-! ## `ResolveString` -/

theorem strings.hasPrefixList_iff :
    ∀ (s p : List Char), strings.hasPrefixList s p = true ↔ ∃ r, s = p ++ r
  | s, [] => by simp [strings.hasPrefixList]
  | [], q :: ps => by simp [strings.hasPrefixList]
  | c :: cs, q :: ps => by
    have ih := strings.hasPrefixList_iff cs ps
    simp only [strings.hasPrefixList, Bool.and_eq_true, beq_iff_eq, ih, List.cons_append,
      List.cons.injEq]
    constructor
    · rintro ⟨rfl, r, rfl⟩
      exact ⟨r, rfl, rfl⟩
    · rintro ⟨r, rfl, rfl⟩
      exact ⟨rfl, r, rfl⟩

theorem strings.replaceFrom_skip (old new : List Char) :
    ∀ (s : List Char) (k : Nat),
      strings.replaceFrom old new k s = strings.replaceFrom old new 0 (s.drop k)
  | [], k => by cases k <;> simp [strings.replaceFrom]
  | c :: cs, 0 => rfl
  | c :: cs, k + 1 => by
    rw [strings.replaceFrom, List.drop_succ_cons]
    exact strings.replaceFrom_skip old new cs k

theorem strings.replaceFrom_match (q : Char) (qs new : List Char) (c : Char) (cs : List Char)
    (h : strings.hasPrefixList (c :: cs) (q :: qs) = true) :
    strings.replaceFrom (q :: qs) new 0 (c :: cs) =
      new ++ strings.replaceFrom (q :: qs) new 0 ((c :: cs).drop (q :: qs).length) := by
  rw [strings.replaceFrom, if_pos h, strings.replaceFrom_skip]
  simp

theorem strings.replaceFrom_no_dollar (ot new : List Char) (s : List Char) :
    ∀ t : List Char, '$' ∉ t →
      strings.replaceFrom ('$' :: ot) new 0 (t ++ s) =
        t ++ strings.replaceFrom ('$' :: ot) new 0 s
  | [], _ => rfl
  | c :: t, h => by
    have hc : c ≠ '$' := fun hc => h (hc ▸ List.mem_cons_self _ _)
    have ht : '$' ∉ t := fun hm => h (List.mem_cons_of_mem _ hm)
    have hpre : strings.hasPrefixList (c :: (t ++ s)) ('$' :: ot) = false := by
      simp [strings.hasPrefixList, hc]
    rw [List.cons_append, strings.replaceFrom, if_neg (by simp [hpre]),
      strings.replaceFrom_no_dollar ot new s t ht, List.cons_append]

theorem dollarsBegin_drop (toks : List (List Char)) :
    ∀ (s : List Char) (k : Nat), dollarsBegin toks s = true →
      dollarsBegin toks (s.drop k) = true
  | [], k, _ => by simp [dollarsBegin]
  | c :: cs, 0, h => h
  | c :: cs, k + 1, h => by
    rw [dollarsBegin, Bool.and_eq_true] at h
    exact dollarsBegin_drop toks cs k h.2

theorem dollarsBegin_append (toks : List (List Char)) (r : List Char)
    (hr : dollarsBegin toks r = true) :
    ∀ t : List Char, '$' ∉ t → dollarsBegin toks (t ++ r) = true
  | [], _ => hr
  | c :: t, h => by
    have hc : c ≠ '$' := fun hc => h (hc ▸ List.mem_cons_self _ _)
    have ht : '$' ∉ t := fun hm => h (List.mem_cons_of_mem _ hm)
    rw [List.cons_append, dollarsBegin, dollarsBegin_append toks r hr t ht]
    simp [hc]

/-- Replacing the token `$ot` keeps the property that every `$` begins a token,
now for the remaining tokens only. -/
theorem strings.replaceFrom_dollarsBegin (ot new : List Char) (others : List (List Char))
    (hnew : '$' ∉ new) (hothers : ∀ t ∈ others, ∃ r, t = '$' :: r ∧ '$' ∉ r) :
    ∀ (n : Nat) (s : List Char), s.length ≤ n →
      dollarsBegin (('$' :: ot) :: others) s = true →
      dollarsBegin others (strings.replaceFrom ('$' :: ot) new 0 s) = true
  | _, [], _, _ => rfl
  | 0, c :: cs, hn, _ => by simp at hn
  | n + 1, c :: cs, hn, hs => by
    have ih := strings.replaceFrom_dollarsBegin ot new others hnew hothers n
    have hlen : cs.length ≤ n := by simpa using hn
    by_cases hm : strings.hasPrefixList (c :: cs) ('$' :: ot) = true
    · rw [strings.replaceFrom_match _ _ _ _ _ hm]
      apply dollarsBegin_append _ _ _ _ hnew
      apply ih
      · simp only [List.length_cons, List.drop_succ_cons, List.length_drop]
        omega
      · exact dollarsBegin_drop _ _ _ hs
    · have hs2 := hs
      rw [dollarsBegin, Bool.and_eq_true] at hs2
      obtain ⟨hhead, htail⟩ := hs2
      by_cases hc : c = '$'
      · subst hc
        simp only [bne_self_eq_false, Bool.false_or, List.any_cons, Bool.or_eq_true,
          List.any_eq_true] at hhead
        rcases hhead with hold | ⟨tok, htok, hpre⟩
        · exact absurd hold hm
        · obtain ⟨r, rfl, hr⟩ := hothers tok htok
          obtain ⟨rest, hrest⟩ := (strings.hasPrefixList_iff _ _).1 hpre
          simp only [List.cons_append, List.cons.injEq, true_and] at hrest
          subst hrest
          have hrestlen : rest.length ≤ n := by
            simp only [List.length_append] at hlen
            omega
          have hrestwf : dollarsBegin (('$' :: ot) :: others) rest = true := by
            have := dollarsBegin_drop _ _ (r.length + 1) hs
            simpa using this
          rw [strings.replaceFrom, if_neg hm, strings.replaceFrom_no_dollar ot new rest r hr,
            dollarsBegin, dollarsBegin_append others _ (ih rest hrestlen hrestwf) r hr,
            Bool.and_true, Bool.or_eq_true, List.any_eq_true]
          refine Or.inr ⟨'$' :: r, htok, ?_⟩
          rw [strings.hasPrefixList_iff]
          exact ⟨_, rfl⟩
      · rw [strings.replaceFrom, if_neg hm, dollarsBegin, ih cs hlen htail]
        simp [hc]

theorem not_mem_of_dollarsBegin_nil :
    ∀ s : List Char, dollarsBegin [] s = true → '$' ∉ s
  | [], _ => List.not_mem_nil _
  | c :: cs, h => by
    rw [dollarsBegin, Bool.and_eq_true] at h
    have hc : c ≠ '$' := by simpa using h.1
    intro hm
    rcases List.mem_cons.1 hm with heq | hm
    · exact hc heq.symm
    · exact not_mem_of_dollarsBegin_nil cs h.2 hm

theorem strings.containsList_dollar_false (t : List Char) :
    ∀ s : List Char, '$' ∉ s → strings.containsList s ('$' :: t) = false
  | [], _ => rfl
  | c :: cs, h => by
    have hc : c ≠ '$' := fun hc => h (hc ▸ List.mem_cons_self _ _)
    have ht : '$' ∉ cs := fun hm => h (List.mem_cons_of_mem _ hm)
    rw [strings.containsList, strings.containsList_dollar_false t cs ht]
    simp [strings.hasPrefixList, hc]

theorem strings.ReplaceAll_data (s tok new : String) (ot : List Char)
    (h : tok.data = '$' :: ot) :
    (strings.ReplaceAll s tok new).data = strings.replaceFrom ('$' :: ot) new.data 0 s.data := by
  unfold strings.ReplaceAll strings.replaceAllList
  rw [h]

theorem ResolveString_dollar_free (s : String) (inj : ValueInjections)
    (hs : dollarsBegin injectionTokens s.data = true)
    (h1 : '$' ∉ inj.InstanceId.data) (h2 : '$' ∉ inj.SolutionId.data)
    (h3 : '$' ∉ inj.TargetId.data) (h4 : '$' ∉ inj.ActivationId.data) :
    '$' ∉ (ResolveString s (some inj)).data := by
  have e1 : "$instance()".data = '$' :: "instance()".data := rfl
  have e2 : "$solution()".data = '$' :: "solution()".data := rfl
  have e3 : "$target()".data = '$' :: "target()".data := rfl
  have e4 : "$activation()".data = '$' :: "activation()".data := rfl
  have n2 : '$' ∉ "solution()".data := by decide
  have n3 : '$' ∉ "target()".data := by decide
  have n4 : '$' ∉ "activation()".data := by decide
  apply not_mem_of_dollarsBegin_nil
  show dollarsBegin [] (strings.ReplaceAll (strings.ReplaceAll (strings.ReplaceAll
    (strings.ReplaceAll s "$instance()" inj.InstanceId) "$solution()" inj.SolutionId)
    "$target()" inj.TargetId) "$activation()" inj.ActivationId).data = true
  rw [strings.ReplaceAll_data _ _ _ _ e4]
  apply strings.replaceFrom_dollarsBegin _ _ _ h4 (by simp) _ _ (le_refl _)
  rw [strings.ReplaceAll_data _ _ _ _ e3]
  apply strings.replaceFrom_dollarsBegin _ _ _ h3 _ _ _ (le_refl _)
  · rw [strings.ReplaceAll_data _ _ _ _ e2]
    apply strings.replaceFrom_dollarsBegin _ _ _ h2 _ _ _ (le_refl _)
    · rw [strings.ReplaceAll_data _ _ _ _ e1]
      apply strings.replaceFrom_dollarsBegin _ _ _ h1 _ _ _ (le_refl _)
      · rw [← e2, ← e3, ← e4, ← e1]
        exact hs
      · intro t ht
        simp only [List.mem_cons, List.mem_singleton, List.not_mem_nil, or_false] at ht
        rcases ht with rfl | rfl | rfl
        · exact ⟨_, rfl, n2⟩
        · exact ⟨_, rfl, n3⟩
        · exact ⟨_, rfl, n4⟩
    · intro t ht
      simp only [List.mem_cons, List.mem_singleton, List.not_mem_nil, or_false] at ht
      rcases ht with rfl | rfl
      · exact ⟨_, rfl, n3⟩
      · exact ⟨_, rfl, n4⟩
  · intro t ht
    simp only [List.mem_cons, List.mem_singleton, List.not_mem_nil, or_false] at ht
    rcases ht with rfl
    exact ⟨_, rfl, n4⟩

/-- C5 as stated fails: the ids of `sampleInjections` contain no `$`, yet
resolving `"$inst$solution()nce()"` yields `"$instance()"`, in which the token
`$instance()` occurs. -/
theorem ResolveString_token_counterexample :
    ('$' ∉ sampleInjections.InstanceId.data ∧ '$' ∉ sampleInjections.SolutionId.data ∧
      '$' ∉ sampleInjections.TargetId.data ∧ '$' ∉ sampleInjections.ActivationId.data) ∧
    ResolveString "$inst$solution()nce()" (some sampleInjections) = "$instance()" ∧
    strings.Contains (ResolveString "$inst$solution()nce()" (some sampleInjections))
      "$instance()" = true := by
  decide

/-- C5 (amended): for every string `s` in which every `$` begins one of the four
tokens, and every non-nil `ValueInjections` whose four ids contain no `$`,
`ResolveString(s, injections)` contains no occurrence of `$instance()`,
`$solution()`, `$target()` or `$activation()`. -/
theorem ResolveString_no_token (s : String) (inj : ValueInjections)
    (hs : dollarsBegin injectionTokens s.data = true)
    (h1 : '$' ∉ inj.InstanceId.data) (h2 : '$' ∉ inj.SolutionId.data)
    (h3 : '$' ∉ inj.TargetId.data) (h4 : '$' ∉ inj.ActivationId.data) :
    strings.Contains (ResolveString s (some inj)) "$instance()" = false ∧
    strings.Contains (ResolveString s (some inj)) "$solution()" = false ∧
    strings.Contains (ResolveString s (some inj)) "$target()" = false ∧
    strings.Contains (ResolveString s (some inj)) "$activation()" = false := by
  have hfree := ResolveString_dollar_free s inj hs h1 h2 h3 h4
  exact ⟨strings.containsList_dollar_false _ _ hfree, strings.containsList_dollar_false _ _ hfree,
    strings.containsList_dollar_false _ _ hfree, strings.containsList_dollar_false _ _ hfree⟩

/-- The amended C5 at a text that holds each of the four tokens once. -/
theorem ResolveString_no_token_witness :
    strings.Contains (ResolveString "http://$instance()/$solution()/$target()/$activation()"
      (some sampleInjections)) "$instance()" = false ∧
    strings.Contains (ResolveString "http://$instance()/$solution()/$target()/$activation()"
      (some sampleInjections)) "$solution()" = false ∧
    strings.Contains (ResolveString "http://$instance()/$solution()/$target()/$activation()"
      (some sampleInjections)) "$target()" = false ∧
    strings.Contains (ResolveString "http://$instance()/$solution()/$target()/$activation()"
      (some sampleInjections)) "$activation()" = false :=
  ResolveString_no_token "http://$instance()/$solution()/$target()/$activation()"
    sampleInjections (by decide) (by decide) (by decide) (by decide) (by decide)

theorem ResolveString_sample :
    ResolveString "http://$instance()/$solution()/$target()/$activation()"
      (some sampleInjections) = "http://i1/a/t1/act1" := by
  decide

/-- C6 as stated fails: with a nil injection struct the token stays in place,
`ResolveString("a$instance()b", nil)` is `"a$instance()b"` and not `"ab"`. -/
theorem ResolveString_nil_counterexample :
    ResolveString "a$instance()b" none = "a$instance()b" ∧
    ResolveString "a$instance()b" none ≠ "ab" := by
  decide

/-- C6 (amended): when the injection struct is absent (nil), `ResolveString(s, nil)`
returns `s` unchanged, for every string `s`. -/
theorem ResolveString_nil (s : String) : ResolveString s none = s := rfl

/-! ## `EnvMapsEqual` -/

theorem EnvMapsEqual.envLoop_true_iff (y : StringMap) :
    ∀ l : List (String × String),
      EnvMapsEqual.loop y l = true ↔
        ∀ k v, (k, v) ∈ l → strings.HasPrefix k "env." = true →
          ∀ bv, y.get? k = some bv → bv = v ∨ noSkipToken bv v = false
  | [] => by simp [EnvMapsEqual.loop]
  | (k, v) :: rest => by
    have ih := EnvMapsEqual.envLoop_true_iff y rest
    constructor
    · intro h k1 v1 hm hp bv hbv
      rw [EnvMapsEqual.loop] at h
      rcases List.mem_cons.1 hm with heq | hm
      · cases heq
        rw [if_pos hp, hbv] at h
        by_cases hne : bv = v
        · exact Or.inl hne
        · right
          cases hs : noSkipToken bv v with
          | false => rfl
          | true => simp [hne, hs] at h
      · have hrest : EnvMapsEqual.loop y rest = true := by
          by_cases hp1 : strings.HasPrefix k "env." = true
          · rw [if_pos hp1] at h
            cases hg : y.get? k with
            | none => simpa [hg] using h
            | some bv1 =>
              rw [hg] at h
              by_cases hne : bv1 = v
              · simpa [hne] using h
              · cases hs : noSkipToken bv1 v with
                | false => simpa [hne, hs] using h
                | true => simp [hne, hs] at h
          · rw [if_neg hp1] at h
            exact h
        exact ih.1 hrest k1 v1 hm hp bv hbv
    · intro h
      have hrest : EnvMapsEqual.loop y rest = true :=
        ih.2 (fun k1 v1 hm => h k1 v1 (List.mem_cons_of_mem _ hm))
      rw [EnvMapsEqual.loop]
      by_cases hp : strings.HasPrefix k "env." = true
      · rw [if_pos hp]
        cases hg : y.get? k with
        | none => exact hrest
        | some bv =>
          rcases h k v (List.mem_cons_self _ _) hp bv hg with heq | hs
          · simp [heq, hrest]
          · by_cases hne : bv = v
            · simp [hne, hrest]
            · simp [hne, hs, hrest]
      · rw [if_neg hp]
        exact hrest

/-- The result of `EnvMapsEqual` in terms of lookups: no key starting with `env.`
is bound in both maps to different values neither of which holds a skip token. -/
theorem EnvMapsEqual_iff (a b : StringMap) :
    EnvMapsEqual a b = true ↔
      ∀ k, strings.HasPrefix k "env." = true → ∀ va vb, a.get? k = some va →
        b.get? k = some vb → va = vb ∨ noSkipToken va vb = false := by
  unfold EnvMapsEqual
  have ha := EnvMapsEqual.envLoop_true_iff b a.entries
  have hb := EnvMapsEqual.envLoop_true_iff a b.entries
  simp only [← StringMap.get?_eq_some_iff] at ha hb
  have hsym : ∀ x y : String, noSkipToken x y = noSkipToken y x := by
    intro x y
    rw [noSkipToken_eq, noSkipToken_eq, Bool.and_comm]
  constructor
  · intro h k hp va vb hka hkb
    have h2 : EnvMapsEqual.loop a b.entries = true := by
      cases h1 : EnvMapsEqual.loop b a.entries <;>
        cases h2 : EnvMapsEqual.loop a b.entries <;> simp [h1, h2] at h ⊢
    exact hb.1 h2 k vb hkb hp va hka
  · intro h
    have h1 : EnvMapsEqual.loop b a.entries = true := by
      apply ha.2
      intro k v hka hp bv hkb
      rcases h k hp v bv hka hkb with h | h
      · exact Or.inl h.symm
      · exact Or.inr (by rw [hsym]; exact h)
    have h2 : EnvMapsEqual.loop a b.entries = true :=
      hb.2 (fun k v hkb hp av hka => h k hp av v hka hkb)
    simp [h1, h2]

theorem StringMap.envOnly_get? (m : StringMap) (k : String) :
    m.envOnly.get? k = if strings.HasPrefix k "env." = true then m.get? k else none := by
  apply Option.ext
  intro v
  simp only [Option.mem_def]
  rw [StringMap.get?_eq_some_iff]
  simp only [StringMap.envOnly, List.mem_filter]
  by_cases hp : strings.HasPrefix k "env." = true
  · simp [hp, StringMap.get?_eq_some_iff]
  · simp [hp]

theorem EnvMapsEqual_congr (a b a2 b2 : StringMap)
    (ha : ∀ k, strings.HasPrefix k "env." = true → a2.get? k = a.get? k)
    (hb : ∀ k, strings.HasPrefix k "env." = true → b2.get? k = b.get? k) :
    EnvMapsEqual a2 b2 = EnvMapsEqual a b := by
  rw [Bool.eq_iff_iff, EnvMapsEqual_iff, EnvMapsEqual_iff]
  constructor
  · intro h k hp va vb hka hkb
    exact h k hp va vb (by rw [ha k hp]; exact hka) (by rw [hb k hp]; exact hkb)
  · intro h k hp va vb hka hkb
    exact h k hp va vb (by rw [← ha k hp]; exact hka) (by rw [← hb k hp]; exact hkb)

/-- C7: `EnvMapsEqual(a, b)` equals `EnvMapsEqual` of the two maps restricted to the
keys that start with `env.`; and any maps `a2`, `b2` that hold the same entries as
`a`, `b` at the keys starting with `env.` (whatever they hold at other keys) give
the same result. -/
theorem EnvMapsEqual_env_only (a b : StringMap) :
    EnvMapsEqual a b = EnvMapsEqual a.envOnly b.envOnly ∧
    ∀ a2 b2 : StringMap,
      (∀ k, strings.HasPrefix k "env." = true → a2.get? k = a.get? k) →
      (∀ k, strings.HasPrefix k "env." = true → b2.get? k = b.get? k) →
      EnvMapsEqual a2 b2 = EnvMapsEqual a b := by
  refine ⟨?_, fun a2 b2 ha hb => EnvMapsEqual_congr a b a2 b2 ha hb⟩
  apply (EnvMapsEqual_congr a b a.envOnly b.envOnly _ _).symm
  · intro k hp
    rw [StringMap.envOnly_get?, if_pos hp]
  · intro k hp
    rw [StringMap.envOnly_get?, if_pos hp]

theorem envImageMap_agrees :
    ∀ k, strings.HasPrefix k "env." = true → envImageMap.get? k = envNameMap.get? k := by
  intro k hp
  have h1 : ("image" : String) ≠ k := by
    rintro rfl
    exact absurd hp (by decide)
  have h2 : ("port" : String) ≠ k := by
    rintro rfl
    exact absurd hp (by decide)
  have h3 : ("name" : String) ≠ k := by
    rintro rfl
    exact absurd hp (by decide)
  simp [envImageMap, envNameMap, StringMap.get?, lookupEntry, h1, h2, h3]

/-- C7 at two maps that differ outside the `env.` keys only. -/
theorem EnvMapsEqual_env_only_witness :
    EnvMapsEqual envImageMap envOtherMap = EnvMapsEqual envNameMap envOtherMap ∧
    EnvMapsEqual envNameMap envOtherMap = false :=
  ⟨(EnvMapsEqual_env_only envNameMap envOtherMap).2 envImageMap envOtherMap
    envImageMap_agrees (fun _ _ => rfl), by decide⟩

/-! ## `SlicesCover` and `SlicesAny` -/

theorem SlicesCover.found_iff {K : Type} (deq : K → K → Bool × GoError) (ia : K) :
    ∀ dest : List K,
      SlicesCover.found deq ia dest = true ↔ ∃ y ∈ dest, deq ia y = (true, none)
  | [] => by simp [SlicesCover.found]
  | jb :: rest => by
    have ih := SlicesCover.found_iff deq ia rest
    rw [SlicesCover.found]
    rcases hd : deq ia jb with ⟨t, e⟩
    cases t <;> cases e <;> simp [hd, ih]

/-- C8: `SlicesCover(src, dest)` returns true exactly when every element of `src`
has an element of `dest` for which `DeepEquals` returns `(true, nil)` (a result
that carries an error is no match); in particular an empty `src` is covered. -/
theorem SlicesCover_iff {K : Type} (deq : K → K → Bool × GoError) (src dest : List K) :
    (SlicesCover deq src dest = true ↔
      ∀ x ∈ src, ∃ y ∈ dest, deq x y = (true, none)) ∧
    SlicesCover deq [] dest = true := by
  refine ⟨?_, rfl⟩
  induction src with
  | nil => simp [SlicesCover]
  | cons ia rest ih =>
    rw [SlicesCover]
    cases hf : SlicesCover.found deq ia dest with
    | true =>
      have hex := (SlicesCover.found_iff deq ia dest).1 hf
      simp only [Bool.not_true, Bool.false_eq_true, if_false, ih, List.mem_cons,
        forall_eq_or_imp, hex, true_and]
    | false =>
      have hnex : ¬ ∃ y ∈ dest, deq ia y = (true, none) := fun h => by
        rw [(SlicesCover.found_iff deq ia dest).2 h] at hf
        cases hf
      simp only [Bool.not_false, if_true, Bool.false_eq_true, List.mem_cons,
        forall_eq_or_imp, hnex, false_and]

theorem SlicesCover_error_is_no_match :
    SlicesCover failingEquals [0] [0] = false ∧ SlicesCover failingEquals [1, 2] [2, 1, 0] = true := by
  decide

theorem SlicesAny.inner_iff {K : Type} (deq : K → K → Bool × GoError) (ia : K) :
    ∀ dest : List K,
      SlicesAny.inner deq ia dest = true ↔ ∃ y ∈ dest, deq ia y = (true, none)
  | [] => by simp [SlicesAny.inner]
  | jb :: rest => by
    have ih := SlicesAny.inner_iff deq ia rest
    rw [SlicesAny.inner]
    rcases hd : deq ia jb with ⟨t, e⟩
    cases t <;> cases e <;> simp [hd, ih]

theorem SlicesAny_nil_right {K : Type} (deq : K → K → Bool × GoError) :
    ∀ src : List K, SlicesAny deq src [] = false
  | [] => rfl
  | ia :: rest => by
    rw [SlicesAny, SlicesAny_nil_right deq rest]
    rfl

/-- C9: `SlicesAny(src, dest)` returns true exactly when some element `x` of `src`
and some element `y` of `dest` have `x.DeepEquals(y) = (true, nil)`; it is false
whenever `src` or `dest` is empty. -/
theorem SlicesAny_iff {K : Type} (deq : K → K → Bool × GoError) (src dest : List K) :
    (SlicesAny deq src dest = true ↔
      ∃ x ∈ src, ∃ y ∈ dest, deq x y = (true, none)) ∧
    SlicesAny deq [] dest = false ∧ SlicesAny deq src [] = false := by
  refine ⟨?_, rfl, SlicesAny_nil_right deq src⟩
  induction src with
  | nil => simp [SlicesAny]
  | cons ia rest ih =>
    rw [SlicesAny]
    cases hf : SlicesAny.inner deq ia dest with
    | true =>
      have hex := (SlicesAny.inner_iff deq ia dest).1 hf
      simp only [if_true, List.mem_cons, exists_eq_or_imp, hex, true_or]
    | false =>
      have hnex : ¬ ∃ y ∈ dest, deq ia y = (true, none) := fun h => by
        rw [(SlicesAny.inner_iff deq ia dest).2 h] at hf
        cases hf
      simp only [Bool.false_eq_true, if_false, ih, List.mem_cons, exists_eq_or_imp, hnex,
        false_or]

theorem SlicesAny_examples :
    SlicesAny natEquals [1, 2] [3, 2] = true ∧ SlicesAny natEquals [1, 2] [3, 4] = false ∧
    SlicesAny failingEquals [0] [0] = false := by
  decide

/-! ## `CatalogSpec.DeepEquals` -/

/-- C10 as stated fails: two catalogs that differ only in `Type` (`config` against
`asset`) compare `(true, nil)`. -/
theorem CatalogSpec_DeepEquals_type_counterexample :
    configCatalog.DeepEquals (fun p q => decide (p = q)) (.catalogSpec assetCatalog) =
      (true, none) ∧
    configCatalog.Type_ ≠ assetCatalog.Type_ := by
  decide

/-- C10 (amended): if `c.DeepEquals(o)` returns `(true, nil)` for two `CatalogSpec`
values then `c` and `o` agree exactly on the string fields `SiteId`, `Name`,
`ParentName` and `Generation` (the field `Type` is not compared). -/
theorem CatalogSpec_DeepEquals_fields {Props : Type} (reflectDeepEqual : Props → Props → Bool)
    (c o : CatalogSpec Props)
    (h : c.DeepEquals reflectDeepEqual (.catalogSpec o) = (true, none)) :
    c.SiteId = o.SiteId ∧ c.Name = o.Name ∧ c.ParentName = o.ParentName ∧
      c.Generation = o.Generation := by
  unfold CatalogSpec.DeepEquals at h
  simp only [ne_eq, ite_not] at h
  by_cases h1 : c.SiteId = o.SiteId
  · by_cases h2 : c.Name = o.Name
    · by_cases h3 : c.ParentName = o.ParentName
      · by_cases h4 : c.Generation = o.Generation
        · exact ⟨h1, h2, h3, h4⟩
        · simp [h1, h2, h3, h4] at h
      · simp [h1, h2, h3] at h
    · simp [h1, h2] at h
  · simp [h1] at h

/-- The amended C10 at two catalogs that differ in `Type` only. -/
theorem CatalogSpec_DeepEquals_fields_witness :
    configCatalog.SiteId = assetCatalog.SiteId ∧ configCatalog.Name = assetCatalog.Name ∧
      configCatalog.ParentName = assetCatalog.ParentName ∧
      configCatalog.Generation = assetCatalog.Generation :=
  CatalogSpec_DeepEquals_fields (fun p q => decide (p = q)) configCatalog assetCatalog
    (by decide)

/-! ## `CatalogState.GetFrom` and `CatalogState.GetTo` -/

/-- C11: `GetFrom` returns `Spec.Metadata["from"]` when `Spec` is present, `Spec.Type`
is exactly `edge` and the metadata has the key `from`, and the empty string in
every other case (nil `Spec`, another type, nil metadata, missing key); `GetTo`
does the same with the key `to`; so a catalog whose type is not `edge` has empty
from and to. -/
theorem CatalogState_GetFrom_GetTo {Props : Type} (s : CatalogState Props) :
    (∀ spec m v, s.Spec = some spec → spec.Type_ = "edge" → spec.Metadata = some m →
      m.get? "from" = some v → s.GetFrom = v) ∧
    ((s.Spec = none ∨ ∃ spec, s.Spec = some spec ∧ (spec.Type_ ≠ "edge" ∨
      spec.Metadata = none ∨ ∃ m, spec.Metadata = some m ∧ m.get? "from" = none)) →
      s.GetFrom = "") ∧
    (∀ spec m v, s.Spec = some spec → spec.Type_ = "edge" → spec.Metadata = some m →
      m.get? "to" = some v → s.GetTo = v) ∧
    ((s.Spec = none ∨ ∃ spec, s.Spec = some spec ∧ (spec.Type_ ≠ "edge" ∨
      spec.Metadata = none ∨ ∃ m, spec.Metadata = some m ∧ m.get? "to" = none)) →
      s.GetTo = "") ∧
    (∀ spec, s.Spec = some spec → spec.Type_ ≠ "edge" → s.GetFrom = "" ∧ s.GetTo = "") := by
  refine ⟨?_, ?_, ?_, ?_, ?_⟩
  · intro spec m v hs ht hm hv
    simp [CatalogState.GetFrom, hs, ht, hm, hv]
  · rintro (hs | ⟨spec, hs, ht | hm | ⟨m, hm, hv⟩⟩)
    · simp [CatalogState.GetFrom, hs]
    · simp [CatalogState.GetFrom, hs, ht]
    · simp [CatalogState.GetFrom, hs, hm]
    · simp [CatalogState.GetFrom, hs, hm, hv]
  · intro spec m v hs ht hm hv
    simp [CatalogState.GetTo, hs, ht, hm, hv]
  · rintro (hs | ⟨spec, hs, ht | hm | ⟨m, hm, hv⟩⟩)
    · simp [CatalogState.GetTo, hs]
    · simp [CatalogState.GetTo, hs, ht]
    · simp [CatalogState.GetTo, hs, hm]
    · simp [CatalogState.GetTo, hs, hm, hv]
  · intro spec hs ht
    simp [CatalogState.GetFrom, CatalogState.GetTo, hs, ht]

/-- C11 at an edge from `a` to `b` and at a node that carries the same metadata. -/
theorem CatalogState_GetFrom_GetTo_witness :
    edgeState.GetFrom = "a" ∧ edgeState.GetTo = "b" ∧
    nodeState.GetFrom = "" ∧ nodeState.GetTo = "" :=
  ⟨(CatalogState_GetFrom_GetTo edgeState).1 _ fromToMap "a" rfl (by decide) rfl (by decide),
    (CatalogState_GetFrom_GetTo edgeState).2.2.1 _ fromToMap "b" rfl (by decide) rfl (by decide),
    (CatalogState_GetFrom_GetTo nodeState).2.2.2.2 _ rfl (by decide)⟩

/-! ## The subscribers of the federation vendor -/

theorem StringMap.ext_entries {a b : StringMap} (h : a.entries = b.entries) : a = b := by
  cases a
  cases b
  cases h
  rfl

theorem StringMap.insert_insert (m : StringMap) (k v w : String) :
    (m.insert k v).insert k w = m.insert k w := by
  apply StringMap.ext_entries
  simp [StringMap.insert, List.filter_filter]

theorem lookupEntry_filter_ne (k q : String) (hq : q ≠ k) :
    ∀ l : List (String × String),
      lookupEntry q (l.filter (fun e => e.1 ≠ k)) = lookupEntry q l
  | [] => rfl
  | (k1, v1) :: rest => by
    have ih := lookupEntry_filter_ne k q hq rest
    by_cases h1 : k1 = k
    · have hne : ¬ k1 = q := fun h => hq (h.symm.trans h1)
      rw [List.filter_cons_of_neg (by simp [h1]), ih, lookupEntry, if_neg hne]
    · rw [List.filter_cons_of_pos (by simp [h1]), lookupEntry, lookupEntry, ih]

theorem StringMap.get?_insert (m : StringMap) (k v q : String) :
    (m.insert k v).get? q = if q = k then some v else m.get? q := by
  unfold StringMap.insert StringMap.get?
  by_cases h : q = k
  · subst h
    simp [lookupEntry]
  · have hne : k ≠ q := fun hk => h hk.symm
    simp only [lookupEntry, if_neg hne, if_neg h]
    exact lookupEntry_filter_ne k q h m.entries

theorem FederationVendor.catalogLoop_eq {β : Type} (body : β) (m : StringMap) :
    ∀ (sites : List SiteState) (m1 : StringMap),
      (∀ v, m1.insert "site" v = m.insert "site" v) →
      FederationVendor.catalogLoop body (some m1) sites =
        (sites.map (fun s => { Metadata := some (m.insert "site" s.Spec.Name), Body := body }),
          false)
  | [], _, _ => rfl
  | site :: rest, m1, h => by
    have ih := FederationVendor.catalogLoop_eq body m rest (m1.insert "site" site.Spec.Name)
      (fun v => by rw [StringMap.insert_insert, h v])
    rw [h site.Spec.Name] at ih
    simp only [FederationVendor.catalogLoop, h site.Spec.Name, ih, List.map_cons]

/-- C12: for a `catalog` event that carries a metadata map `m` and sites
`[S1, ..., Sn]` returned by the Sites manager, the subscriber calls
`HandleJobEvent` exactly `n` times, the i-th call with the body of the event and
the metadata `m` with `site` set to the name of `Si` (every other key as in `m`),
and then returns nil. -/
theorem FederationVendor_catalog_fan_out {β : Type} (event : v1alpha2.Event β) (m : StringMap)
    (sites : List SiteState) (hm : event.Metadata = some m) (_hsite : m.get? "site" = none) :
    FederationVendor.catalogSubscriber (.ok sites) event =
      (sites.map (fun s =>
        { Metadata := some (m.insert "site" s.Spec.Name), Body := event.Body }),
        .done none) ∧
    (FederationVendor.catalogSubscriber (.ok sites) event).1.length = sites.length ∧
    ∀ v k, (m.insert "site" v).get? k = if k = "site" then some v else m.get? k := by
  have h : FederationVendor.catalogSubscriber (.ok sites) event =
      (sites.map (fun s =>
        { Metadata := some (m.insert "site" s.Spec.Name), Body := event.Body }),
        .done none) := by
    unfold FederationVendor.catalogSubscriber
    simp only [hm, FederationVendor.catalogLoop_eq event.Body m sites m (fun _ => rfl)]
    rfl
  refine ⟨h, ?_, fun v k => StringMap.get?_insert m "site" v k⟩
  rw [h, List.length_map]

/-- C12 at three sites and an event with the metadata `{"objectType": "catalog"}`. -/
theorem FederationVendor_catalog_fan_out_witness :
    FederationVendor.catalogSubscriber (.ok threeSites)
        ({ Metadata := some objectTypeMap, Body := "c1" } : v1alpha2.Event String) =
      (threeSites.map (fun s =>
        { Metadata := some (objectTypeMap.insert "site" s.Spec.Name), Body := "c1" }),
        .done none) ∧
    (FederationVendor.catalogSubscriber (.ok threeSites)
        ({ Metadata := some objectTypeMap, Body := "c1" } : v1alpha2.Event String)).1.length =
      threeSites.length ∧
    ∀ v k, (objectTypeMap.insert "site" v).get? k =
      if k = "site" then some v else objectTypeMap.get? k :=
  FederationVendor_catalog_fan_out { Metadata := some objectTypeMap, Body := "c1" }
    objectTypeMap threeSites rfl (by decide)

/-- C13: an event on topic `remote` whose metadata has no key `site` gets a
`BadRequest` error and no call of `HandleJobEvent`; when the key is present the
unchanged event is handed to `HandleJobEvent` exactly once and nil is returned. -/
theorem FederationVendor_remote_subscriber {β : Type} (event : v1alpha2.Event β) :
    ((event.Metadata = none ∨ ∃ m, event.Metadata = some m ∧ m.get? "site" = none) →
      FederationVendor.remoteSubscriber event =
        ([], some (.coa "site is not supplied" .BadRequest))) ∧
    (∀ m v, event.Metadata = some m → m.get? "site" = some v →
      FederationVendor.remoteSubscriber event = ([event], none)) := by
  constructor
  · rintro (h | ⟨m, h, hs⟩)
    · simp [FederationVendor.remoteSubscriber, v1alpha2.Event.hasMetadata, h]
    · simp [FederationVendor.remoteSubscriber, v1alpha2.Event.hasMetadata, h, hs]
  · intro m v h hs
    simp [FederationVendor.remoteSubscriber, v1alpha2.Event.hasMetadata, h, hs]

/-- C13 at an event with the metadata `{"site": "edge1"}` and at one with nil
metadata. -/
theorem FederationVendor_remote_subscriber_witness :
    FederationVendor.remoteSubscriber
        ({ Metadata := some siteMap, Body := "job" } : v1alpha2.Event String) =
      ([{ Metadata := some siteMap, Body := "job" }], none) ∧
    FederationVendor.remoteSubscriber
        ({ Metadata := none, Body := "job" } : v1alpha2.Event String) =
      ([], some (.coa "site is not supplied" .BadRequest)) :=
  ⟨(FederationVendor_remote_subscriber _).2 siteMap "edge1" rfl (by decide),
    (FederationVendor_remote_subscriber _).1 (Or.inl rfl)⟩

/-- C14: on topic `report`, a body that is not an `ActivationStatus` gets
`BadRequest` without a call upstream; a body that is one, with the upstream call
succeeding, gets `BadRequest` as well; and the subscriber returns an error for
every event. -/
theorem FederationVendor_report_subscriber {β Status : Type}
    (asActivationStatus : β → Option Status)
    (SyncActivationStatus : Status → Option ErrorValue) (event : v1alpha2.Event β) :
    (asActivationStatus event.Body = none →
      FederationVendor.reportSubscriber asActivationStatus SyncActivationStatus event =
        ([], some (.coa "report is not an activation status" .BadRequest))) ∧
    (∀ status, asActivationStatus event.Body = some status →
      SyncActivationStatus status = none →
      FederationVendor.reportSubscriber asActivationStatus SyncActivationStatus event =
        ([status], some (.coa "report is not an activation status" .BadRequest))) ∧
    (FederationVendor.reportSubscriber asActivationStatus SyncActivationStatus event).2 ≠
      none := by
  refine ⟨?_, ?_, ?_⟩
  · intro h
    simp [FederationVendor.reportSubscriber, h]
  · intro status h hs
    simp [FederationVendor.reportSubscriber, h, hs]
  · unfold FederationVendor.reportSubscriber
    cases h : asActivationStatus event.Body with
    | none => simp
    | some status =>
      cases hs : SyncActivationStatus status <;> simp [hs]

/-- C14 at a body that is an activation status (`some`) with a working upstream,
and at one that is not. -/
theorem FederationVendor_report_subscriber_witness :
    FederationVendor.reportSubscriber (fun b : Option String => b) (fun _ => none)
        { Metadata := none, Body := some "done" } =
      (["done"], some (.coa "report is not an activation status" .BadRequest)) ∧
    FederationVendor.reportSubscriber (fun b : Option String => b) (fun _ => none)
        { Metadata := none, Body := none } =
      ([], some (.coa "report is not an activation status" .BadRequest)) :=
  ⟨(FederationVendor_report_subscriber (fun b : Option String => b) (fun _ => none)
      { Metadata := none, Body := some "done" }).2.1 "done" rfl rfl,
    (FederationVendor_report_subscriber (fun b : Option String => b) (fun _ => none)
      { Metadata := none, Body := none }).1 rfl⟩

/-! ## Endpoints and handlers of the federation vendor -/

/-- C19, the code at every vendor: the only endpoint of `GetEndpoints` whose
handler is `onRegistry` has the route `<route>/registry` and the methods `POST` and
`GET`, without `DELETE`; while `onRegistry` itself serves a `DELETE` request (it
answers `OK` or `InternalError`, not `MethodNotAllowed`). -/
theorem FederationVendor_registry_endpoint_methods (f : vendors.Vendor) :
    (FederationVendor.GetEndpoints f).filter (fun e => e.Handler = .onRegistry) =
      [ { Methods := ["POST", "GET"],
          Route := (if f.Route ≠ "" then f.Route else "federation") ++ "/registry",
          Version := f.Version, Handler := .onRegistry, Parameters := ["name?"] } ] ∧
    "DELETE" ∉ ["POST", "GET"] ∧
    (∀ (σ : Type) (sites : SitesManager σ) (errText : ErrorValue → String)
      (unmarshalSite : String → Except ErrorValue SiteSpec)
      (FormatObject : RegistryObject → Bool → String → String → String) (st : σ)
      (params : StringMap) (body : String),
      (FederationVendor.onRegistry sites errText unmarshalSite FormatObject st
        { Method := "DELETE", Parameters := params, Body := body }).2.State ≠
          .MethodNotAllowed) := by
  refine ⟨rfl, by decide, ?_⟩
  intro σ sites errText unmarshalSite FormatObject st params body
  have h1 : ¬ ("DELETE" = fasthttp.MethodGet) := by decide
  have h2 : ¬ ("DELETE" = fasthttp.MethodPost) := by decide
  have h3 : "DELETE" = fasthttp.MethodDelete := by decide
  unfold FederationVendor.onRegistry
  dsimp only
  rw [if_neg h1, if_neg h2, if_pos h3]
  rcases hd : sites.DeleteSpec st (params.getD "__name") with ⟨st1, e⟩
  cases e <;> simp

theorem default_registry_endpoint :
    FederationVendor.GetEndpoints defaultVendor =
      [ { Methods := ["POST", "GET"], Route := "federation/sync", Version := "v1alpha2",
          Handler := .onSync, Parameters := ["site?"] },
        { Methods := ["POST", "GET"], Route := "federation/registry", Version := "v1alpha2",
          Handler := .onRegistry, Parameters := ["name?"] },
        { Methods := ["GET"], Route := "federation/graph", Version := "v1alpha2",
          Handler := .onGraph, Parameters := ["name?"] },
        { Methods := ["POST"], Route := "federation/trail", Version := "v1alpha2",
          Handler := .onTrail, Parameters := [] } ] := by
  decide

theorem FederationVendor.onSync.collect_ok {Props : Type}
    (GetSpec : String → Except ErrorValue (CatalogState Props)) :
    ∀ (batch : List v1alpha2.JobData) (catalogs : List (CatalogSpec Props))
      (jobs : List v1alpha2.JobData),
      (∀ c ∈ batch, c.Action ≠ "RUN" →
        ∃ st spec, GetSpec c.Id = .ok st ∧ st.Spec = some spec) →
      ∃ cs, FederationVendor.onSync.collect GetSpec batch catalogs jobs =
          .done (.ok (catalogs ++ cs, jobs ++ batch.filter (fun c => c.Action = "RUN"))) ∧
        List.Forall₂ (fun c spec => ∃ st, GetSpec c.Id = .ok st ∧ st.Spec = some spec)
          (batch.filter (fun c => c.Action ≠ "RUN")) cs
  | [], catalogs, jobs, _ => ⟨[], by simp [FederationVendor.onSync.collect], by simp⟩
  | c :: rest, catalogs, jobs, h => by
    have hrest : ∀ c1 ∈ rest, c1.Action ≠ "RUN" →
        ∃ st spec, GetSpec c1.Id = .ok st ∧ st.Spec = some spec :=
      fun c1 hc1 => h c1 (List.mem_cons_of_mem _ hc1)
    by_cases hrun : c.Action = "RUN"
    · obtain ⟨cs, hcs, hall⟩ :=
        FederationVendor.onSync.collect_ok GetSpec rest catalogs (jobs ++ [c]) hrest
      refine ⟨cs, ?_, ?_⟩
      · rw [FederationVendor.onSync.collect, if_pos hrun, hcs]
        simp [hrun]
      · simpa [hrun] using hall
    · obtain ⟨st, spec, hst, hspec⟩ := h c (List.mem_cons_self _ _) hrun
      obtain ⟨cs, hcs, hall⟩ :=
        FederationVendor.onSync.collect_ok GetSpec rest (catalogs ++ [spec]) jobs hrest
      refine ⟨spec :: cs, ?_, ?_⟩
      · rw [FederationVendor.onSync.collect, if_neg hrun, hst]
        simp only [hspec, hcs]
        simp [hrun]
      · have hf : (c :: rest).filter (fun c => c.Action ≠ "RUN") =
            c :: rest.filter (fun c => c.Action ≠ "RUN") := by
          simp [hrun]
        rw [hf]
        exact List.Forall₂.cons ⟨st, hst, hspec⟩ hall

theorem FederationVendor.onSync.collect_error {Props : Type}
    (GetSpec : String → Except ErrorValue (CatalogState Props))
    (hspec : ∀ id st, GetSpec id = .ok st → st.Spec ≠ none) :
    ∀ (batch : List v1alpha2.JobData) (catalogs : List (CatalogSpec Props))
      (jobs : List v1alpha2.JobData),
      (∃ c ∈ batch, c.Action ≠ "RUN" ∧ ∃ e, GetSpec c.Id = .error e) →
      ∃ e, FederationVendor.onSync.collect GetSpec batch catalogs jobs = .done (.error e)
  | [], _, _, h => by
    obtain ⟨c, hc, _⟩ := h
    cases hc
  | c :: rest, catalogs, jobs, h => by
    obtain ⟨c1, hc1, hrun1, e1, he1⟩ := h
    rw [FederationVendor.onSync.collect]
    by_cases hrun : c.Action = "RUN"
    · rw [if_pos hrun]
      apply FederationVendor.onSync.collect_error GetSpec hspec rest
      rcases List.mem_cons.1 hc1 with rfl | hmem
      · exact absurd hrun hrun1
      · exact ⟨c1, hmem, hrun1, e1, he1⟩
    · rw [if_neg hrun]
      cases hg : GetSpec c.Id with
      | error err => exact ⟨err, rfl⟩
      | ok catalog =>
        cases hs : catalog.Spec with
        | none => exact absurd hs (hspec c.Id catalog hg)
        | some spec =>
          simp only [hs]
          apply FederationVendor.onSync.collect_error GetSpec hspec rest
          rcases List.mem_cons.1 hc1 with rfl | hmem
          · rw [hg] at he1
            cases he1
          · exact ⟨c1, hmem, hrun1, e1, he1⟩

theorem length_filter_add_length_filter_ne (batch : List v1alpha2.JobData) :
    (batch.filter (fun c => c.Action ≠ "RUN")).length +
      (batch.filter (fun c => c.Action = "RUN")).length = batch.length := by
  induction batch with
  | nil => rfl
  | cons c rest ih =>
    have ih2 : (rest.filter (fun c => !decide (c.Action = "RUN"))).length +
        (rest.filter (fun c => decide (c.Action = "RUN"))).length = rest.length := by
      simpa using ih
    by_cases hrun : c.Action = "RUN"
    · simp [hrun]
      omega
    · simp [hrun]
      omega

/-- The GET branch of `onSync` under the assumption that every successful lookup of
the Catalogs manager carries a spec: when the drain returns a batch and every
catalog lookup succeeds, the answer is `OK` with the package whose jobs are the
batch entries of action `RUN`, in batch order, and whose catalogs are the specs
looked up for the other entries, in batch order, so that
`len(catalogs) + len(jobs) = len(batch)`; when the drain fails or some catalog
lookup fails the answer is `InternalError` with the text of an error as its body. -/
theorem FederationVendor_onSync_get {Props Status : Type} (f : vendors.Vendor)
    (errText : ErrorValue → String) (unmarshalStatus : String → Except ErrorValue Status)
    (Publish : String → v1alpha2.Event Status → Option ErrorValue)
    (GetABatchForSite : String → Except ErrorValue (List v1alpha2.JobData))
    (GetSpec : String → Except ErrorValue (CatalogState Props))
    (FormatObject : SyncPackage Props → Bool → String → String → String)
    (params : StringMap) (body : String)
    (hspec : ∀ id st, GetSpec id = .ok st → st.Spec ≠ none) :
    (∀ batch, GetABatchForSite (params.getD "__site") = .ok batch →
      (∀ c ∈ batch, c.Action ≠ "RUN" → ∃ st, GetSpec c.Id = .ok st) →
      ∃ catalogs,
        FederationVendor.onSync f errText unmarshalStatus Publish GetABatchForSite GetSpec
            FormatObject { Method := "GET", Parameters := params, Body := body } =
          ([], .done
            { State := .OK,
              Body := FormatObject
                { Origin := f.Site, Catalogs := catalogs,
                  Jobs := batch.filter (fun c => c.Action = "RUN") }
                true (params.getD "path") (params.getD "doc-type"),
              ContentType :=
                if params.getD "doc-type" = "yaml" then "application/text"
                else "application/json" }) ∧
        List.Forall₂ (fun c spec => ∃ st, GetSpec c.Id = .ok st ∧ st.Spec = some spec)
          (batch.filter (fun c => c.Action ≠ "RUN")) catalogs ∧
        catalogs.length + (batch.filter (fun c => c.Action = "RUN")).length = batch.length) ∧
    (∀ err, GetABatchForSite (params.getD "__site") = .error err →
      FederationVendor.onSync f errText unmarshalStatus Publish GetABatchForSite GetSpec
          FormatObject { Method := "GET", Parameters := params, Body := body } =
        ([], .done { State := .InternalError, Body := errText err, ContentType := "" })) ∧
    (∀ batch, GetABatchForSite (params.getD "__site") = .ok batch →
      (∃ c ∈ batch, c.Action ≠ "RUN" ∧ ∃ e, GetSpec c.Id = .error e) →
      ∃ e, FederationVendor.onSync f errText unmarshalStatus Publish GetABatchForSite GetSpec
          FormatObject { Method := "GET", Parameters := params, Body := body } =
        ([], .done { State := .InternalError, Body := errText e, ContentType := "" })) := by
  have h1 : ¬ ("GET" = fasthttp.MethodPost) := by decide
  have h2 : "GET" = fasthttp.MethodGet := by decide
  refine ⟨?_, ?_, ?_⟩
  · intro batch hb hall
    have hall2 : ∀ c ∈ batch, c.Action ≠ "RUN" →
        ∃ st spec, GetSpec c.Id = .ok st ∧ st.Spec = some spec := by
      intro c hc hrun
      obtain ⟨st, hst⟩ := hall c hc hrun
      cases hs : st.Spec with
      | none => exact absurd hs (hspec c.Id st hst)
      | some spec => exact ⟨st, spec, hst, hs⟩
    obtain ⟨cs, hcs, hpair⟩ := FederationVendor.onSync.collect_ok GetSpec batch [] [] hall2
    refine ⟨cs, ?_, hpair, ?_⟩
    · unfold FederationVendor.onSync
      dsimp only
      rw [if_neg h1, if_pos h2, hb]
      simp only [hcs, List.nil_append]
      by_cases hy : params.getD "doc-type" = "yaml"
      · simp [hy]
      · simp [hy]
    · rw [← hpair.length_eq]
      exact length_filter_add_length_filter_ne batch
  · intro err hb
    unfold FederationVendor.onSync
    dsimp only
    rw [if_neg h1, if_pos h2, hb]
  · intro batch hb hfail
    obtain ⟨e, he⟩ := FederationVendor.onSync.collect_error GetSpec hspec batch [] [] hfail
    refine ⟨e, ?_⟩
    unfold FederationVendor.onSync
    dsimp only
    rw [if_neg h1, if_pos h2, hb]
    simp only [he]

/-- The GET branch at a batch of two catalogs and one `RUN` job, with lookups that
carry a spec: the package has two catalogs and one job. -/
theorem FederationVendor_onSync_get_witness :
    ∃ catalogs : List (CatalogSpec (List (String × String))),
      FederationVendor.onSync defaultVendor (fun _ => "error")
          (fun s : String => Except.ok s) (fun _ _ => none) (fun _ => .ok sampleBatch)
          sampleGetSpec (fun p _ _ _ => toString p.Catalogs.length ++ toString p.Jobs.length)
          { Method := "GET", Parameters := siteMap, Body := "" } =
        ([], .done
          { State := .OK,
            Body := toString catalogs.length ++
              toString (sampleBatch.filter (fun c => c.Action = "RUN")).length,
            ContentType := "application/json" }) ∧
      catalogs.length = 2 ∧ (sampleBatch.filter (fun c => c.Action = "RUN")).length = 1 := by
  have hspec : ∀ id st, sampleGetSpec id = .ok st → st.Spec ≠ none := by
    intro id st h
    simp only [sampleGetSpec, Except.ok.injEq] at h
    subst h
    simp
  obtain ⟨catalogs, h, _, hlen⟩ :=
    (FederationVendor_onSync_get defaultVendor (fun _ => "error")
      (fun s : String => Except.ok s) (fun _ _ => none) (fun _ => .ok sampleBatch)
      sampleGetSpec (fun p _ _ _ => toString p.Catalogs.length ++ toString p.Jobs.length)
      siteMap "" hspec).1 sampleBatch rfl (fun c _ _ => ⟨_, rfl⟩)
  have hjobs : (sampleBatch.filter (fun c => c.Action = "RUN")).length = 1 := by decide
  refine ⟨catalogs, ?_, ?_, hjobs⟩
  · rw [h]
    have hy : ¬ (siteMap.getD "doc-type" = "yaml") := by decide
    simp [hy]
  · rw [hjobs] at hlen
    have : sampleBatch.length = 3 := rfl
    omega

theorem FederationVendor_onSync_get_nil_spec_example :
    FederationVendor.onSync defaultVendor (fun _ => "error")
        (fun s : String => Except.ok s) (fun _ _ => none)
        (fun _ => .ok [{ Id := "c1", Action := "UPDATE" }])
        (fun i => .ok { Id := i, Spec := none, Status := none })
        (fun (p : SyncPackage (List (String × String))) _ _ _ =>
          toString p.Catalogs.length ++ toString p.Jobs.length)
        { Method := "GET", Parameters := siteMap, Body := "" } = ([], .fault) :=
  rfl

/-! ## `SolutionVendor.onQueue` -/

/-- C20: a POST to `solution/queue` with a non-empty `instance` parameter publishes
exactly one event, on topic `job`, with body `JobData` of `Id = instance` and
`Action` `DELETE` when `delete` is exactly `true` and `UPDATE` otherwise, and with
metadata `objectType` = `target` when `target` is exactly `true` and `instance`
otherwise, and `scope` = the `scope` parameter or `default` when it is absent; the
answer is `OK`.  With an empty or missing `instance`, GET and POST answer
`BadRequest` and publish nothing. -/
theorem SolutionVendor_onQueue {Summary : Type}
    (GetSummary : String → String → Summary × Option ErrorValue)
    (Marshal : Summary → String) (IsNotFound : ErrorValue → Bool)
    (params : StringMap) (body : String) :
    (params.getD "instance" ≠ "" →
      ∃ m : StringMap,
        SolutionVendor.onQueue GetSummary Marshal IsNotFound
            { Method := "POST", Parameters := params, Body := body } =
          ([("job",
              { Metadata := some m,
                Body := { Id := params.getD "instance",
                          Action := if params.getD "delete" = "true" then "DELETE"
                            else "UPDATE" } })],
            { State := .OK,
              Body := "\x7b\"result\":\"200 - instance reconcilation job accepted\"\x7d",
              ContentType := "application/json" }) ∧
        m.get? "objectType" =
          some (if params.getD "target" = "true" then "target" else "instance") ∧
        m.get? "scope" =
          some (match params.get? "scope" with
            | some v => v
            | none => "default") ∧
        ∀ k, k ≠ "objectType" → k ≠ "scope" → m.get? k = none) ∧
    (params.getD "instance" = "" →
      (SolutionVendor.onQueue GetSummary Marshal IsNotFound
          { Method := "POST", Parameters := params, Body := body }).1 = [] ∧
      (SolutionVendor.onQueue GetSummary Marshal IsNotFound
          { Method := "POST", Parameters := params, Body := body }).2.State = .BadRequest ∧
      (SolutionVendor.onQueue GetSummary Marshal IsNotFound
          { Method := "GET", Parameters := params, Body := body }).1 = [] ∧
      (SolutionVendor.onQueue GetSummary Marshal IsNotFound
          { Method := "GET", Parameters := params, Body := body }).2.State = .BadRequest) := by
  have hpg : ¬ ("POST" = fasthttp.MethodGet) := by decide
  have hpp : "POST" = fasthttp.MethodPost := by decide
  have hgg : "GET" = fasthttp.MethodGet := by decide
  constructor
  · intro hinst
    refine ⟨SolutionVendor.jobMetadata
      (if params.getD "target" = "true" then "target" else "instance")
      (match params.get? "scope" with
        | some v => v
        | none => "default"), ?_, ?_, ?_, ?_⟩
    · unfold SolutionVendor.onQueue
      dsimp only
      rw [if_neg hpg, if_pos hpp, if_neg hinst]
    · simp [SolutionVendor.jobMetadata, StringMap.get?, lookupEntry]
    · have hne : ¬ ("objectType" = "scope") := by decide
      simp [SolutionVendor.jobMetadata, StringMap.get?, lookupEntry, hne]
    · intro k h1 h2
      simp [SolutionVendor.jobMetadata, StringMap.get?, lookupEntry, Ne.symm h1, Ne.symm h2]
  · intro hinst
    unfold SolutionVendor.onQueue
    dsimp only
    rw [if_neg hpg, if_pos hpp, if_pos hgg, if_pos hinst, if_pos hinst]
    exact ⟨rfl, rfl, rfl, rfl⟩

/-- C20 at the parameters `instance=i1`, `delete=true`: one `DELETE` job for `i1`,
about an instance, in scope `default`. -/
theorem SolutionVendor_onQueue_witness :
    ∃ m : StringMap,
      SolutionVendor.onQueue (fun _ _ => ("summary", none)) (fun s : String => s)
          (fun _ => false) { Method := "POST", Parameters := queueDeleteParams, Body := "" } =
        ([("job", { Metadata := some m, Body := { Id := "i1", Action := "DELETE" } })],
          { State := .OK,
            Body := "\x7b\"result\":\"200 - instance reconcilation job accepted\"\x7d",
            ContentType := "application/json" }) ∧
      m.get? "objectType" = some "instance" ∧ m.get? "scope" = some "default" := by
  obtain ⟨m, h1, h2, h3, _⟩ :=
    (SolutionVendor_onQueue (fun _ _ => ("summary", none)) (fun s : String => s)
      (fun _ => false) queueDeleteParams "").1 (by decide)
  exact ⟨m, h1, h2, h3⟩

/-! ## The managers -/

/-- C16: over a state store that returns the last body upserted under the same
(scope, group, resource, id), for every name and every spec `S` that the JSON
re-encoding of the decode step reproduces, an `UpsertSpec(name, S)` that the store
accepts followed by `GetSpec(name)` returns a `DeviceState` with `Id = name` and
`Spec` equal to `S`. -/
theorem DevicesManager_round_trip {σ S : Type} (p : states.IStateProvider σ S)
    (codec : JSONCodec S S) (FabricGroup : String) (st : σ) (name : String) (spec : S)
    (hstore : states.ReturnsLastUpsert p)
    (hvalid : codec.Unmarshal (codec.Marshal (.spec spec)) = .ok spec)
    (hup : (DevicesManager.UpsertSpec p FabricGroup st name spec).2 = none) :
    DevicesManager.GetSpec p codec FabricGroup
        (DevicesManager.UpsertSpec p FabricGroup st name spec).1 name =
      .done (.ok { Id := name, Spec := some spec }) := by
  unfold DevicesManager.UpsertSpec at hup ⊢
  rcases hu : p.Upsert st (DevicesManager.upsertRequest FabricGroup name spec) with ⟨st1, r⟩
  rw [hu] at hup
  cases r with
  | error err => simp at hup
  | ok etag =>
    have hkey : states.storeKey (DevicesManager.getRequest FabricGroup name).Metadata
        (DevicesManager.getRequest FabricGroup name).ID =
        states.storeKey (DevicesManager.upsertRequest FabricGroup name spec).Metadata
          (DevicesManager.upsertRequest FabricGroup name spec).Value.ID := by
      simp [states.storeKey, DevicesManager.getRequest, DevicesManager.upsertRequest,
        managers.plainMetadata, managers.templateMetadata, StringMap.getD, StringMap.get?,
        lookupEntry]
    obtain ⟨e, hget, hbody⟩ := hstore st (DevicesManager.upsertRequest FabricGroup name spec)
      etag (by rw [hu]) (DevicesManager.getRequest FabricGroup name) hkey
    rw [hu] at hget
    simp only [DevicesManager.GetSpec, hget, hbody]
    simp [DevicesManager.upsertRequest, getDeviceState, AnyValue.lookup, hvalid]

theorem memoryStore_returnsLastUpsert (S : Type) : states.ReturnsLastUpsert (memoryStore S) := by
  intro st req etag _ greq hkey
  refine ⟨req.Value, ?_, rfl⟩
  simp [memoryStore, hkey]

/-- C16 on the in-memory store, for the device `d1` with the spec `"camera"`. -/
theorem DevicesManager_round_trip_witness :
    DevicesManager.GetSpec (memoryStore String) textCodec "fabric.symphony"
        (DevicesManager.UpsertSpec (memoryStore String) "fabric.symphony" [] "d1"
          "camera").1 "d1" =
      .done (.ok { Id := "d1", Spec := some "camera" }) :=
  DevicesManager_round_trip (memoryStore String) textCodec "fabric.symphony" [] "d1" "camera"
    (memoryStore_returnsLastUpsert String) rfl rfl

/-- C17, the code at a body that is not a string-keyed map: `getDeviceState` and
`getModelState` stop in a runtime panic on a string body and on a nil body, for
every id, and so does `ListSpec` on a store that lists such an entry; on a body
that is a string-keyed map they return a state or an error. -/
theorem getDeviceState_body_not_a_map {S R : Type} (codec : JSONCodec S R) (id : String) :
    (∀ s, getDeviceState codec id (.str s) = .fault) ∧
    getDeviceState codec id .nil = .fault ∧
    (∀ s etag, getModelState codec id (.str s) etag = .fault) ∧
    (∀ etag, getModelState codec id .nil etag = .fault) ∧
    (∀ s rest ret, DevicesManager.ListSpec.loop codec
      ({ ID := id, Body := .str s, ETag := "" } :: rest) ret = .fault) ∧
    (∀ dict, getDeviceState codec id (.dict dict) ≠ .fault) ∧
    (∀ dict etag, getModelState codec id (.dict dict) etag ≠ .fault) := by
  refine ⟨fun _ => rfl, rfl, fun _ _ => rfl, fun _ => rfl, fun _ _ _ => rfl, ?_, ?_⟩
  · intro dict
    simp only [getDeviceState]
    cases codec.Unmarshal (codec.Marshal (AnyValue.lookup "spec" dict)) <;> simp
  · intro dict etag
    simp only [getModelState]
    cases codec.Unmarshal (codec.Marshal (AnyValue.lookup "spec" dict)) <;> simp

/-- C18 as stated fails: the request that `DevicesManager.GetSpec` builds has no key
`scope` in its metadata, and neither has the one of `ModelsManager.ListSpec`. -/
theorem managers_get_request_scope_counterexample :
    (DevicesManager.getRequest "fabric.symphony" "d1").Metadata.get? "scope" = none ∧
    (DevicesManager.listRequest "fabric.symphony").Metadata.get? "scope" = none ∧
    (ModelsManager.getRequest "ai.symphony" "m1").Metadata.get? "scope" = none ∧
    (ModelsManager.listRequest "ai.symphony").Metadata.get? "scope" = none := by
  decide

/-- C18 (amended): every request built by `DevicesManager` and `ModelsManager`
carries a metadata map with the keys `group`, `version` and `resource`, with
version `v1` and resource `devices` or `models`; the `Upsert` and `Delete` requests
also carry the key `scope` with the empty string, while the `List` and `Get`
requests have no key `scope`, so that reading it gives the empty string too. -/
theorem managers_request_metadata {S : Type} (FabricGroup AIGroup name : String) (spec : S) :
    managers.HasScopedKeys (DevicesManager.upsertRequest FabricGroup name spec).Metadata
      FabricGroup "devices" ∧
    managers.HasScopedKeys (DevicesManager.deleteRequest FabricGroup name).Metadata
      FabricGroup "devices" ∧
    managers.HasUnscopedKeys (DevicesManager.listRequest FabricGroup).Metadata
      FabricGroup "devices" ∧
    managers.HasUnscopedKeys (DevicesManager.getRequest FabricGroup name).Metadata
      FabricGroup "devices" ∧
    managers.HasScopedKeys (ModelsManager.upsertRequest AIGroup name spec).Metadata
      AIGroup "models" ∧
    managers.HasScopedKeys (ModelsManager.deleteRequest AIGroup name).Metadata
      AIGroup "models" ∧
    managers.HasUnscopedKeys (ModelsManager.listRequest AIGroup).Metadata AIGroup "models" ∧
    managers.HasUnscopedKeys (ModelsManager.getRequest AIGroup name).Metadata
      AIGroup "models" := by
  refine ⟨?_, ?_, ?_, ?_, ?_, ?_, ?_, ?_⟩ <;>
    simp [managers.HasScopedKeys, managers.HasUnscopedKeys, DevicesManager.upsertRequest,
      DevicesManager.deleteRequest, DevicesManager.listRequest, DevicesManager.getRequest,
      ModelsManager.upsertRequest, ModelsManager.deleteRequest, ModelsManager.listRequest,
      ModelsManager.getRequest, managers.plainMetadata, managers.templateMetadata,
      managers.scopedMetadata, StringMap.getD, StringMap.get?, lookupEntry]

/-! ## The `catalog` subscriber on an event without a metadata map -/

/-- C21, the code at an event whose metadata map is nil: with at least one
registered site the `catalog` subscriber stops in a runtime panic at the write of
the site name, before any call of `HandleJobEvent`; with no site, or with a
metadata map, it returns nil. -/
theorem FederationVendor_catalog_nil_metadata {β : Type} (body : β) (site : SiteState)
    (rest : List SiteState) :
    FederationVendor.catalogSubscriber (.ok (site :: rest))
        { Metadata := none, Body := body } = ([], .fault) ∧
    FederationVendor.catalogSubscriber (.ok [])
        ({ Metadata := none, Body := body } : v1alpha2.Event β) = ([], .done none) ∧
    (∀ m : StringMap, (FederationVendor.catalogSubscriber (.ok (site :: rest))
        { Metadata := some m, Body := body }).2 = .done none) := by
  refine ⟨rfl, rfl, ?_⟩
  intro m
  unfold FederationVendor.catalogSubscriber
  simp only [FederationVendor.catalogLoop_eq body m (site :: rest) m (fun _ => rfl)]
  rfl

theorem FederationVendor_catalog_nil_metadata_example :
    FederationVendor.catalogSubscriber (.ok [edgeSite])
        ({ Metadata := none, Body := "c1" } : v1alpha2.Event String) = ([], .fault) :=
  rfl

/-! ## `EnvMapsEqual`: keys present in one map only -/

/-- C22: `EnvMapsEqual(a, b)` is false exactly when some key starting with `env.` is
present in both maps with different values neither of which contains
`$instance()`, `$solution()` or `$target()`; a key present in only one of the
maps never makes it false, and `EnvMapsEqual(a, {})` is true for every `a`. -/
theorem EnvMapsEqual_false_iff (a b : StringMap) :
    (EnvMapsEqual a b = false ↔
      ∃ k va vb, strings.HasPrefix k "env." = true ∧ a.get? k = some va ∧
        b.get? k = some vb ∧ va ≠ vb ∧ hasSkipToken va = false ∧ hasSkipToken vb = false) ∧
    EnvMapsEqual a StringMap.empty = true ∧ EnvMapsEqual StringMap.empty a = true := by
  refine ⟨?_, ?_, ?_⟩
  · rw [← Bool.not_eq_true, EnvMapsEqual_iff]
    constructor
    · intro h
      by_contra hne
      apply h
      intro k hp va vb hka hkb
      by_cases heq : va = vb
      · exact Or.inl heq
      · right
        cases hs : noSkipToken va vb with
        | false => rfl
        | true =>
          exfalso
          apply hne
          rw [noSkipToken_eq] at hs
          simp only [Bool.and_eq_true, Bool.not_eq_true'] at hs
          exact ⟨k, va, vb, hp, hka, hkb, heq, hs.1, hs.2⟩
    · rintro ⟨k, va, vb, hp, hka, hkb, hne, hsa, hsb⟩ h
      rcases h k hp va vb hka hkb with heq | hs
      · exact hne heq
      · rw [noSkipToken_eq, hsa, hsb] at hs
        cases hs
  · rw [EnvMapsEqual_iff]
    intro k _ va vb _ hkb
    cases hkb
  · rw [EnvMapsEqual_iff]
    intro k _ va vb hka _
    cases hka

/-- C22 at `{"env.A": "1", "env.B": "2"}` against `{"env.A": "1", "env.C": "3"}`:
the keys `env.B` and `env.C` are in one map only and the result is true. -/
theorem EnvMapsEqual_false_iff_witness :
    EnvMapsEqual envABMap envACMap = true ∧
    (EnvMapsEqual envNameMap envOtherMap = false ↔
      ∃ k va vb, strings.HasPrefix k "env." = true ∧ envNameMap.get? k = some va ∧
        envOtherMap.get? k = some vb ∧ va ≠ vb ∧ hasSkipToken va = false ∧
        hasSkipToken vb = false) ∧
    EnvMapsEqual envABMap StringMap.empty = true :=
  ⟨by decide, (EnvMapsEqual_false_iff envNameMap envOtherMap).1,
    (EnvMapsEqual_false_iff envABMap envACMap).2.1⟩

/-! ## `CheckProperty` and `HasSameProperty` -/

/-- C23: `HasSameProperty(a, b, k)` equals `CheckProperty(a, b, k, false)` and
`CheckProperty(b, a, k, false)` taken together; `HasSameProperty` is symmetric in
`a` and `b`; and `CheckProperty(a, b, k, ignoreCase)` is true whenever `k` is absent
from `a`, whatever `b` holds. -/
theorem HasSameProperty_eq_CheckProperty_both (EqualFold : String → String → Bool)
    (a b : StringMap) (k : String) :
    HasSameProperty a b k =
      (CheckProperty EqualFold a b k false && CheckProperty EqualFold b a k false) ∧
    HasSameProperty a b k = HasSameProperty b a k ∧
    (a.get? k = none → ∀ ignoreCase, CheckProperty EqualFold a b k ignoreCase = true) := by
  refine ⟨?_, ?_, ?_⟩
  · unfold HasSameProperty CheckProperty
    cases ha : a.get? k with
    | none =>
      cases hb : b.get? k <;> simp
    | some va =>
      cases hb : b.get? k with
      | none => simp
      | some vb =>
        by_cases h : va = vb
        · simp [h]
        · simp [h, Ne.symm h]
  · unfold HasSameProperty
    cases ha : a.get? k with
    | none =>
      cases hb : b.get? k <;> simp
    | some va =>
      cases hb : b.get? k with
      | none => simp
      | some vb =>
        by_cases h : va = vb
        · simp [h]
        · simp [h, Ne.symm h]
  · intro ha ignoreCase
    simp [CheckProperty, ha]

/-- C23 at the empty map against `{"a": "1", "b": "2"}` and the key `a`:
`CheckProperty` is true in one direction and false in the other, and
`HasSameProperty` is false both ways. -/
theorem HasSameProperty_eq_CheckProperty_both_witness :
    CheckProperty asciiEqualFold StringMap.empty abMap "a" false = true ∧
    CheckProperty asciiEqualFold abMap StringMap.empty "a" false = false ∧
    HasSameProperty StringMap.empty abMap "a" = false ∧
    HasSameProperty abMap StringMap.empty "a" = false ∧
    HasSameProperty abMap acMap "a" = true :=
  ⟨(HasSameProperty_eq_CheckProperty_both asciiEqualFold StringMap.empty abMap "a").2.2 rfl
      false,
    by decide, by decide, by decide, by decide⟩
